import Mathlib

/-!
Verification of the N8N proxy server (proxy_server/) against its
natural-language specification.  The Python sources are shallowly embedded:
JSON values become an inductive type, `json.dumps` byte sizes are computed by
an executable serializer, and each relevant Python function is translated to
an executable Lean definition.
-/

set_option maxRecDepth 40000

namespace N8N

/-- JSON values as produced by Python's `json.loads`.  Numbers keep their
source lexeme (the claims never compare numeric values across spellings).
Objects are association lists with unique keys (Python `dict` semantics:
insertion order preserved, duplicate keys collapse at insert time). -/
inductive Json where
  | null : Json
  | bool (b : Bool) : Json
  | num (raw : String) : Json
  | str (s : String) : Json
  | arr (xs : List Json) : Json
  | obj (kvs : List (String × Json)) : Json

abbrev JObj := List (String × Json)

/-- First-occurrence lookup (Python `dict.get` on a dict with unique keys). -/
def jGet (kvs : JObj) (k : String) : Option Json :=
  match kvs with
  | [] => none
  | (k', v) :: rest => if k' = k then some v else jGet rest k

/-- Python `d[k] = v`: replace the value at the first occurrence of `k`
(keeping its position), or append a new entry. -/
def jSet (kvs : JObj) (k : String) (v : Json) : JObj :=
  match kvs with
  | [] => [(k, v)]
  | (k', v') :: rest => if k' = k then (k, v) :: rest else (k', v') :: jSet rest k v

/-- Python `d.pop(k, None)`: remove the first occurrence of `k`. -/
def jDel (kvs : JObj) (k : String) : JObj :=
  match kvs with
  | [] => []
  | (k', v') :: rest => if k' = k then rest else (k', v') :: jDel rest k

/-- `true` when the digits of a JSON number lexeme's mantissa are all zero,
i.e. the Python float/int value is falsy (`0`, `-0.0`, `0e9`, ...).
`NaN`/`Infinity` have no digits and count as truthy. -/
def numLexemeZero (raw : String) : Bool :=
  let mant := raw.data.takeWhile (fun c => !(c = 'e' || c = 'E'))
  let digits := mant.filter (fun c => c.isDigit)
  !digits.isEmpty && digits.all (fun c => c = '0')

/-- Python truthiness of a parsed JSON value. -/
def Json.truthy : Json → Bool
  | .null => false
  | .bool b => b
  | .num raw => !numLexemeZero raw
  | .str s => !s.data.isEmpty
  | .arr xs => !xs.isEmpty
  | .obj kvs => !kvs.isEmpty

/-! ## `json.dumps` (default flags: `ensure_ascii=True`, separators `", "`/`": "`)

The serializer output is pure ASCII, so its UTF-8 byte length equals its
character count; `bytesJObj` below is therefore a faithful model of
`len(json.dumps(req).encode('utf-8'))`. -/

def lbrace : Char := Char.ofNat 123

def rbrace : Char := Char.ofNat 125

/-- Lowercase hexadecimal digit, as CPython's `json` encoder emits. -/
def hexDigit (n : Nat) : Char :=
  if n < 10 then Char.ofNat (48 + n) else Char.ofNat (87 + n)

def uEscape (n : Nat) : List Char :=
  ['\\', 'u', hexDigit (n / 4096 % 16), hexDigit (n / 256 % 16),
   hexDigit (n / 16 % 16), hexDigit (n % 16)]

/-- How one character is rendered inside a JSON string literal
(`ensure_ascii=True`: everything outside `0x20..0x7e` becomes `\uXXXX`,
astral characters become a surrogate pair). -/
def escapeChar (c : Char) : List Char :=
  let n := c.toNat
  if n = 34 then ['\\', '"']
  else if n = 92 then ['\\', '\\']
  else if n = 8 then ['\\', 'b']
  else if n = 9 then ['\\', 't']
  else if n = 10 then ['\\', 'n']
  else if n = 12 then ['\\', 'f']
  else if n = 13 then ['\\', 'r']
  else if 32 ≤ n && n ≤ 126 then [c]
  else if n < 65536 then uEscape n
  else uEscape (55296 + (n - 65536) / 1024) ++ uEscape (56320 + (n - 65536) % 1024)

def dumpStr (s : String) : List Char :=
  '"' :: s.data.foldr (fun c acc => escapeChar c ++ acc) ['"']

mutual

def Json.dumpChars : Json → List Char
  | .null => 'n' :: 'u' :: 'l' :: 'l' :: []
  | .bool true => 't' :: 'r' :: 'u' :: 'e' :: []
  | .bool false => 'f' :: 'a' :: 'l' :: 's' :: 'e' :: []
  | .num raw => raw.data
  | .str s => dumpStr s
  | .arr xs => '[' :: (Json.dumpArr xs ++ [']'])
  | .obj kvs => lbrace :: (Json.dumpObjEntries kvs ++ [rbrace])

def Json.dumpArr : List Json → List Char
  | [] => []
  | [x] => x.dumpChars
  | x :: y :: rest => x.dumpChars ++ ',' :: ' ' :: Json.dumpArr (y :: rest)

def Json.dumpObjEntries : List (String × Json) → List Char
  | [] => []
  | [(k, v)] => dumpStr k ++ ':' :: ' ' :: v.dumpChars
  | (k, v) :: e :: rest =>
      dumpStr k ++ ':' :: ' ' :: v.dumpChars ++ ',' :: ' ' :: Json.dumpObjEntries (e :: rest)

end

/-- `len(json.dumps(req).encode('utf-8'))` for a request dict. -/
def bytesJObj (req : JObj) : Nat := (Json.dumpChars (.obj req)) |>.length

/-! ## Payload Budget Enforcer — `_aggressive_trim_request` (server.py 195-251)

Messages are Python dicts; the enforcer reads `m.get('role')`,
`m.get('content')` and mutates `m['content']`.  Any exception inside the
`try` (a non-dict message, a non-sized truthy content passed to `len`)
makes the function return the original `github_request`. -/

/-- `m.get('role') == 'system'`. -/
def isSystemMsg (m : JObj) : Bool :=
  match jGet m "role" with
  | some (.str r) => r = "system"
  | _ => false

/-- The messages list as seen by the enforcer's comprehensions.
`none` models an exception escaping to the `except` handler (a non-dict
element, or a non-iterable / string-of-dicts `messages` value); an empty
string or empty dict iterates zero times, like a missing key. -/
def objList : List Json → Option (List JObj)
  | [] => some []
  | .obj m :: rest => (objList rest).map (m :: ·)
  | _ => none

def msgListOf (req : JObj) : Option (List JObj) :=
  match jGet req "messages" with
  | none => some []
  | some (.arr xs) => objList xs
  | some (.str s) => if s.data.isEmpty then some [] else none
  | some (.obj kvs) => if kvs.isEmpty then some [] else none
  | some _ => none

def setMessages (req : JObj) (ms : List JObj) : JObj :=
  jSet req "messages" (.arr (ms.map Json.obj))

/-- Stage 1 `while` loop: drop non-system messages from the front while the
serialized size stays over `target`. -/
def dropLoop (target : Nat) (req : JObj) (sys : List JObj) : List JObj → List JObj
  | [] => []
  | m :: rest =>
      if bytesJObj (setMessages req (sys ++ m :: rest)) > target then
        dropLoop target req sys rest
      else m :: rest

/-- `True` when `len(m.get('content','') or '')` raises (truthy number or
`True` boolean content). -/
def badLenContent (m : JObj) : Bool :=
  match jGet m "content" with
  | some (.num raw) => !numLexemeZero raw
  | some (.bool b) => b
  | _ => false

def dots : String := "..."

/-- Stage 2 body: `m['content'] = m['content'][:cap] + '...'` when the
content is a string longer than `cap`. -/
def capMsg (cap : Nat) (m : JObj) : JObj :=
  match jGet m "content" with
  | some (.str s) =>
      if s.data.length > cap then jSet m "content" (.str ⟨s.data.take cap ++ dots.data⟩)
      else m
  | _ => m

def applyCap (cap : Nat) (ms : List JObj) : List JObj := ms.map (capMsg cap)

/-- Stage 2 `for cap in caps` loop with its early return once under budget. -/
def capsLoop (target : Nat) (req : JObj) : List Nat → List JObj → List JObj
  | [], ms => ms
  | cap :: rest, ms =>
      let ms' := applyCap cap ms
      if bytesJObj (setMessages req ms') ≤ target then ms'
      else capsLoop target req rest ms'

/-- Last resort: non-system string contents are cut to 120 characters. -/
def lastResortMsg (m : JObj) : JObj :=
  if isSystemMsg m then m
  else
    match jGet m "content" with
    | some (.str s) =>
        if s.data.length > 120 then jSet m "content" (.str ⟨s.data.take 120 ++ dots.data⟩)
        else m
    | _ => m

/-- Stages 1-4 of `_aggressive_trim_request`, once the messages list has been
read without an exception and the quick size check has failed. -/
def trimMain (github_request : JObj) (target : Nat) (msgs : List JObj) : JObj :=
  let sys := msgs.filter isSystemMsg
  let nonsys := msgs.filter (fun m => !isSystemMsg m)
  let remaining := dropLoop target github_request sys nonsys
  let req1 := setMessages github_request (sys ++ remaining)
  if bytesJObj req1 ≤ target then req1
  else if (sys ++ remaining).any badLenContent then github_request
  else
    let ms1 := sys ++ remaining
    let msgs2 := if ms1.isEmpty then ms1 else capsLoop target req1 [1024, 512, 256, 128] ms1
    let req2 := setMessages req1 msgs2
    if bytesJObj req2 ≤ target then req2
    else
      let req3 := jDel req2 "tools"
      if bytesJObj req3 ≤ target then req3
      else setMessages req3 (msgs2.map lastResortMsg)

/-- `_aggressive_trim_request(github_request, target_bytes)`. -/
def aggressiveTrimRequest (github_request : JObj) (target : Nat) : JObj :=
  if bytesJObj github_request ≤ target then github_request
  else
    match msgListOf github_request with
    | none => github_request
    | some msgs => trimMain github_request target msgs

/-! ## Dict lemmas -/

theorem jGet_jSet_self (r : JObj) (k : String) (v : Json) : jGet (jSet r k v) k = some v := by
  induction r with
  | nil => simp [jSet, jGet]
  | cons e rest ih =>
      obtain ⟨k', v'⟩ := e
      by_cases h : k' = k <;> simp [jSet, jGet, h, ih]

theorem jGet_jSet_ne (r : JObj) (k' k : String) (v : Json) (h : k' ≠ k) :
    jGet (jSet r k' v) k = jGet r k := by
  induction r with
  | nil => simp [jSet, jGet, h]
  | cons e rest ih =>
      obtain ⟨k₀, v₀⟩ := e
      by_cases h₀ : k₀ = k'
      · subst h₀; simp [jSet, jGet, h]
      · simp [jSet, jGet, h₀, ih]

theorem jSet_eq_self (r : JObj) (k : String) (v : Json) (h : jGet r k = some v) :
    jSet r k v = r := by
  induction r with
  | nil => simp [jGet] at h
  | cons e rest ih =>
      obtain ⟨k₀, v₀⟩ := e
      by_cases h₀ : k₀ = k
      · subst h₀
        simp [jGet] at h
        simp [jSet, h]
      · simp [jGet, h₀] at h
        simp [jSet, h₀, ih h]

theorem jGet_jDel_ne (r : JObj) (k' k : String) (h : k' ≠ k) :
    jGet (jDel r k') k = jGet r k := by
  induction r with
  | nil => simp [jDel]
  | cons e rest ih =>
      obtain ⟨k₀, v₀⟩ := e
      by_cases h₀ : k₀ = k'
      · subst h₀; simp [jDel, jGet, h]
      · simp [jDel, jGet, h₀, ih]

theorem jDel_absent (r : JObj) (k : String) (h : jGet r k = none) : jDel r k = r := by
  induction r with
  | nil => simp [jDel]
  | cons e rest ih =>
      obtain ⟨k₀, v₀⟩ := e
      by_cases h₀ : k₀ = k
      · subst h₀; simp [jGet] at h
      · simp [jGet, h₀] at h
        simp [jDel, h₀, ih h]

theorem jGet_none_of_not_mem (r : JObj) (k : String) (h : k ∉ r.map Prod.fst) :
    jGet r k = none := by
  induction r with
  | nil => rfl
  | cons e rest ih =>
      obtain ⟨k₀, v₀⟩ := e
      simp only [List.map_cons, List.mem_cons] at h
      push_neg at h
      have hk₀ : k₀ ≠ k := fun hh => h.1 hh.symm
      simp [jGet, hk₀, ih h.2]

theorem jGet_jDel_nodup (r : JObj) (k : String) (h : (r.map Prod.fst).Nodup) :
    jGet (jDel r k) k = none := by
  induction r with
  | nil => simp [jDel, jGet]
  | cons e rest ih =>
      obtain ⟨k₀, v₀⟩ := e
      simp only [List.map_cons, List.nodup_cons] at h
      by_cases h₀ : k₀ = k
      · subst h₀
        simp only [jDel, if_pos rfl]
        exact jGet_none_of_not_mem rest k₀ h.1
      · simp [jDel, h₀, jGet, ih h.2]

theorem jSet_keys (r : JObj) (k : String) (v : Json) :
    (jSet r k v).map Prod.fst = if k ∈ r.map Prod.fst then r.map Prod.fst
      else r.map Prod.fst ++ [k] := by
  induction r with
  | nil => simp [jSet]
  | cons e rest ih =>
      obtain ⟨k₀, v₀⟩ := e
      by_cases h₀ : k₀ = k
      · subst h₀; simp [jSet]
      · have hne : ¬ k = k₀ := fun hh => h₀ hh.symm
        by_cases hmem : k ∈ rest.map Prod.fst
        · simp [jSet, h₀, ih, hne, hmem]
        · simp [jSet, h₀, ih, hne, hmem]

theorem jSet_keys_nodup (r : JObj) (k : String) (v : Json)
    (h : (r.map Prod.fst).Nodup) : ((jSet r k v).map Prod.fst).Nodup := by
  rw [jSet_keys]
  by_cases hmem : k ∈ r.map Prod.fst
  · simpa [hmem] using h
  · rw [if_neg hmem]
    refine List.Nodup.append h (by simp) ?_
    intro x hx hxk
    simp only [List.mem_singleton] at hxk
    exact hmem (hxk ▸ hx)

theorem objList_map_obj (ms : List JObj) : objList (ms.map Json.obj) = some ms := by
  induction ms with
  | nil => rfl
  | cons m rest ih => simp [objList, ih]

/-! ## Claim C2: which trimming stages preserve system-message content -/

/-- Elements surviving the stage-1 drop loop come from its input. -/
theorem dropLoop_mem (t : Nat) (r : JObj) (s : List JObj) :
    ∀ l x, x ∈ dropLoop t r s l → x ∈ l := by
  intro l
  induction l with
  | nil => intro x hx; simpa [dropLoop] using hx
  | cons m rest ih =>
      intro x hx
      by_cases h : bytesJObj (setMessages r (s ++ m :: rest)) > t
      · simp only [dropLoop, if_pos h] at hx
        exact List.mem_cons_of_mem _ (ih x hx)
      · simp only [dropLoop, if_neg h] at hx
        exact hx

/-- The stage-1 loop stops only when nothing is left or the budget is met. -/
theorem dropLoop_post (t : Nat) (r : JObj) (s : List JObj) (l : List JObj) :
    dropLoop t r s l = [] ∨ bytesJObj (setMessages r (s ++ dropLoop t r s l)) ≤ t := by
  induction l with
  | nil => exact Or.inl rfl
  | cons m rest ih =>
      by_cases h : bytesJObj (setMessages r (s ++ m :: rest)) > t
      · simpa only [dropLoop, if_pos h] using ih
      · exact Or.inr (by simpa only [dropLoop, if_neg h] using Nat.le_of_not_lt h)

/-- System messages pass through the last-resort stage untouched. -/
theorem lastResort_system_fix (m : JObj) (h : isSystemMsg m = true) :
    lastResortMsg m = m := by
  simp [lastResortMsg, h]

theorem sysFilter_stage1 (t : Nat) (r : JObj) (msgs : List JObj) :
    ((msgs.filter isSystemMsg) ++
        dropLoop t r (msgs.filter isSystemMsg) (msgs.filter fun m => !isSystemMsg m)).filter
        isSystemMsg = msgs.filter isSystemMsg := by
  rw [List.filter_append]
  have h₁ : (msgs.filter isSystemMsg).filter isSystemMsg = msgs.filter isSystemMsg := by
    rw [List.filter_eq_self]
    intro a ha
    exact (List.mem_filter.mp ha).2
  have h₂ : (dropLoop t r (msgs.filter isSystemMsg)
      (msgs.filter fun m => !isSystemMsg m)).filter isSystemMsg = [] := by
    rw [List.filter_eq_nil]
    intro a ha
    have := dropLoop_mem t r _ _ a ha
    have hmem := List.mem_filter.mp this
    simp only [Bool.not_eq_true'] at hmem
    simp [hmem.2]
  rw [h₁, h₂, List.append_nil]

/-- C2 (amended): the message-dropping stage, the tools-removal stage and the
last-resort stage all leave every system-role message byte-identical; the
character-cap stage is the one stage that may truncate system content
(see `c2_counterexample`). -/
theorem c2_system_preservation :
    (∀ (t : Nat) (r : JObj) (msgs : List JObj),
      ((msgs.filter isSystemMsg) ++
          dropLoop t r (msgs.filter isSystemMsg)
            (msgs.filter fun m => !isSystemMsg m)).filter isSystemMsg
        = msgs.filter isSystemMsg)
    ∧ (∀ req : JObj, jGet (jDel req "tools") "messages" = jGet req "messages")
    ∧ (∀ m : JObj, isSystemMsg m = true → lastResortMsg m = m) :=
  ⟨sysFilter_stage1,
   fun req => jGet_jDel_ne req "tools" "messages" (by decide),
   lastResort_system_fix⟩

theorem c2_system_preservation_witness :
    lastResortMsg [("role", Json.str "system"), ("content", Json.str "keepme")]
      = [("role", Json.str "system"), ("content", Json.str "keepme")] :=
  c2_system_preservation.2.2 _ (by decide)

/-- Content of the first message of a request, when it is a string. -/
def firstContentStr (req : JObj) : Option String :=
  match jGet req "messages" with
  | some (.arr (.obj m :: _)) =>
      match jGet m "content" with
      | some (.str s) => some s
      | _ => none
  | _ => none

def c2long : String := ⟨List.replicate 140 'a'⟩

def c2trunc : String := ⟨List.replicate 128 'a' ++ dots.data⟩

def c2msg : JObj := [("role", Json.str "system"), ("content", Json.str c2long)]

def c2req : JObj := [("model", Json.str "openai/gpt-4o-mini"), ("messages", Json.arr [Json.obj c2msg])]

/-- C2 counterexample: on a request whose only message is a system message of
140 characters and a 10-byte ceiling, the enforcer rewrites the system
message's content to its 128-character cap plus the truncation marker — and
it is the character-cap stage (not the last resort, which leaves the message
alone) that does it.  So a non-last-resort stage does change system content. -/
theorem c2_counterexample :
    firstContentStr (aggressiveTrimRequest c2req 10) = some c2trunc
    ∧ c2trunc ≠ c2long
    ∧ isSystemMsg c2msg = true
    ∧ jGet (capMsg 128 c2msg) "content" = some (Json.str c2trunc)
    ∧ lastResortMsg c2msg = c2msg := by
  refine ⟨by rfl, by decide, by rfl, by rfl, by rfl⟩

/-! ## Claim C3: idempotence of the enforcer -/

theorem strEta (s : String) : String.mk s.data = s := by cases s; rfl

theorem map_fix {α : Type} (l : List α) (f : α → α) (h : ∀ a ∈ l, f a = a) :
    l.map f = l := by
  induction l with
  | nil => rfl
  | cons x xs ih => simp [h x (List.mem_cons_self x xs), ih fun a ha => h a (List.mem_cons_of_mem _ ha)]

/-- Cap-stage fixed points: the content is a string of at most 128 characters
or is already of the shape `prefix-of-128 ++ "..."`, or is not a string. -/
def capFixed (m : JObj) : Prop :=
  match jGet m "content" with
  | some (.str s) => s.data.length ≤ 128 ∨ s.data = s.data.take 128 ++ dots.data
  | _ => True

theorem capFixed_len {m : JObj} {s : String} (h : capFixed m)
    (hc : jGet m "content" = some (.str s)) : s.data.length ≤ 131 := by
  unfold capFixed at h
  rw [hc] at h
  rcases h with h | h
  · omega
  · have := congrArg List.length h
    simp only [List.length_append, List.length_take] at this
    have hd : dots.data.length = 3 := rfl
    omega

theorem capMsg_fix128 (m : JObj) (h : capFixed m) : capMsg 128 m = m := by
  cases hc : jGet m "content" with
  | none => simp [capMsg, hc]
  | some v =>
      cases v with
      | str s =>
          unfold capFixed at h
          rw [hc] at h
          by_cases hl : s.data.length > 128
          · simp only [capMsg, hc, if_pos hl]
            rcases h with h | h
            · omega
            · rw [← h, strEta]
              exact jSet_eq_self m "content" (.str s) hc
          · simp only [capMsg, hc, if_neg hl]
      | null => simp [capMsg, hc]
      | bool b => simp [capMsg, hc]
      | num raw => simp [capMsg, hc]
      | arr xs => simp [capMsg, hc]
      | obj kvs => simp [capMsg, hc]

theorem capMsg_fix_big (cap : Nat) (m : JObj) (hcap : 131 ≤ cap) (h : capFixed m) :
    capMsg cap m = m := by
  cases hc : jGet m "content" with
  | none => simp [capMsg, hc]
  | some v =>
      cases v with
      | str s =>
          have hlen := capFixed_len h hc
          simp only [capMsg, hc, if_neg (show ¬ s.data.length > cap by omega)]
      | null => simp [capMsg, hc]
      | bool b => simp [capMsg, hc]
      | num raw => simp [capMsg, hc]
      | arr xs => simp [capMsg, hc]
      | obj kvs => simp [capMsg, hc]

theorem applyCap128_capFixed (ms : List JObj) : ∀ m ∈ applyCap 128 ms, capFixed m := by
  intro m' hm'
  simp only [applyCap, List.mem_map] at hm'
  obtain ⟨m, _, rfl⟩ := hm'
  cases hc : jGet m "content" with
  | none => simp [capMsg, capFixed, hc]
  | some v =>
      cases v with
      | str s =>
          by_cases hl : s.data.length > 128
          · simp only [capMsg, hc, if_pos hl]
            unfold capFixed
            rw [jGet_jSet_self]
            have h128 : (s.data.take 128).length = 128 := by
              simp only [List.length_take]
              omega
            have htake : ((s.data.take 128 ++ dots.data).take 128) = s.data.take 128 := by
              rw [List.take_append_of_le_length (by omega), List.take_take]
              norm_num
            right
            simp only [String.data]
            rw [htake]
          · simp only [capMsg, hc, if_neg hl]
            unfold capFixed
            rw [hc]
            left
            omega
      | null => simp [capMsg, capFixed, hc]
      | bool b => simp [capMsg, capFixed, hc]
      | num raw => simp [capMsg, capFixed, hc]
      | arr xs => simp [capMsg, capFixed, hc]
      | obj kvs => simp [capMsg, capFixed, hc]

theorem applyCap_id (cap : Nat) (ms : List JObj) (hcap : cap = 128 ∨ 131 ≤ cap)
    (h : ∀ m ∈ ms, capFixed m) : applyCap cap ms = ms := by
  apply map_fix
  intro m hm
  rcases hcap with rfl | hcap
  · exact capMsg_fix128 m (h m hm)
  · exact capMsg_fix_big cap m hcap (h m hm)

/-- Either the caps loop exited early under budget, or every message in its
output is a cap-stage fixed point. -/
theorem capsLoop_post (t : Nat) (r : JObj) (ms : List JObj) :
    (∀ m ∈ capsLoop t r [1024, 512, 256, 128] ms, capFixed m)
    ∨ bytesJObj (setMessages r (capsLoop t r [1024, 512, 256, 128] ms)) ≤ t := by
  simp only [capsLoop]
  split_ifs with h1 h2 h3 h4
  · exact Or.inr h1
  · exact Or.inr h2
  · exact Or.inr h3
  · exact Or.inr h4
  · exact Or.inl (applyCap128_capFixed _)

theorem capsLoop_id (t : Nat) (r : JObj) (ms : List JObj)
    (hfix : ∀ m ∈ ms, capFixed m)
    (hgt : ¬ bytesJObj (setMessages r ms) ≤ t) :
    capsLoop t r [1024, 512, 256, 128] ms = ms := by
  simp only [capsLoop]
  rw [applyCap_id 1024 ms (Or.inr (by omega)) hfix,
      if_neg hgt,
      applyCap_id 512 ms (Or.inr (by omega)) hfix,
      if_neg hgt,
      applyCap_id 256 ms (Or.inr (by omega)) hfix,
      if_neg hgt,
      applyCap_id 128 ms (Or.inl rfl) hfix,
      if_neg hgt]

theorem capMsg_role (cap : Nat) (m : JObj) :
    jGet (capMsg cap m) "role" = jGet m "role" := by
  cases hc : jGet m "content" with
  | none => simp [capMsg, hc]
  | some v =>
      cases v with
      | str s =>
          by_cases hl : s.data.length > cap
          · simp only [capMsg, hc, if_pos hl]
            exact jGet_jSet_ne m "content" "role" _ (by decide)
          · simp only [capMsg, hc, if_neg hl]
      | null => simp [capMsg, hc]
      | bool b => simp [capMsg, hc]
      | num raw => simp [capMsg, hc]
      | arr xs => simp [capMsg, hc]
      | obj kvs => simp [capMsg, hc]

theorem isSystemMsg_capMsg (cap : Nat) (m : JObj) :
    isSystemMsg (capMsg cap m) = isSystemMsg m := by
  unfold isSystemMsg
  rw [capMsg_role]

theorem badLen_capMsg (cap : Nat) (m : JObj) :
    badLenContent (capMsg cap m) = badLenContent m := by
  cases hc : jGet m "content" with
  | none => simp [capMsg, hc]
  | some v =>
      cases v with
      | str s =>
          by_cases hl : s.data.length > cap
          · simp only [capMsg, hc, if_pos hl]
            unfold badLenContent
            rw [jGet_jSet_self, hc]
          · simp only [capMsg, hc, if_neg hl]
      | null => simp [capMsg, hc]
      | bool b => simp [capMsg, hc]
      | num raw => simp [capMsg, hc]
      | arr xs => simp [capMsg, hc]
      | obj kvs => simp [capMsg, hc]

/-- Pointwise properties preserved by every `capMsg` survive `capsLoop`. -/
theorem capsLoop_pointwise (p : JObj → Prop)
    (hp : ∀ cap m, p m → p (capMsg cap m)) (t : Nat) (r : JObj) :
    ∀ (caps : List Nat) (ms : List JObj), (∀ m ∈ ms, p m) →
      ∀ m ∈ capsLoop t r caps ms, p m := by
  intro caps
  induction caps with
  | nil => intro ms h m hm; exact h m hm
  | cons cap rest ih =>
      intro ms h m hm
      have happly : ∀ m' ∈ applyCap cap ms, p m' := by
        intro m' hm'
        simp only [applyCap, List.mem_map] at hm'
        obtain ⟨m₀, hm₀, rfl⟩ := hm'
        exact hp cap m₀ (h m₀ hm₀)
      simp only [capsLoop] at hm
      split_ifs at hm with hb
      · exact happly m hm
      · exact ih (applyCap cap ms) happly m hm

theorem jSet_jSet (r : JObj) (k : String) (v w : Json) :
    jSet (jSet r k v) k w = jSet r k w := by
  induction r with
  | nil => simp [jSet]
  | cons e rest ih =>
      obtain ⟨k₀, v₀⟩ := e
      by_cases h₀ : k₀ = k
      · subst h₀; simp [jSet]
      · simp [jSet, h₀, ih]

theorem setMessages_setMessages (r : JObj) (a b : List JObj) :
    setMessages (setMessages r a) b = setMessages r b := by
  simp only [setMessages]
  exact jSet_jSet r "messages" _ _

theorem trim_of_le (req : JObj) (t : Nat) (h : bytesJObj req ≤ t) :
    aggressiveTrimRequest req t = req := by
  simp only [aggressiveTrimRequest, if_pos h]

/-- `trimMain` once stage 1 is known to have dropped every non-system
message: the flow only depends on the surviving system messages. -/
def trimMainSys (github_request : JObj) (target : Nat) (sys : List JObj) : JObj :=
  let req1 := setMessages github_request sys
  if bytesJObj req1 ≤ target then req1
  else if sys.any badLenContent then github_request
  else
    let msgs2 := if sys.isEmpty then sys else capsLoop target req1 [1024, 512, 256, 128] sys
    let req2 := setMessages req1 msgs2
    if bytesJObj req2 ≤ target then req2
    else
      let req3 := jDel req2 "tools"
      if bytesJObj req3 ≤ target then req3
      else setMessages req3 (msgs2.map lastResortMsg)

theorem trimMain_nil_remaining (req : JObj) (t : Nat) (msgs : List JObj)
    (hrem : dropLoop t req (msgs.filter isSystemMsg)
      (msgs.filter fun m => !isSystemMsg m) = []) :
    trimMain req t msgs = trimMainSys req t (msgs.filter isSystemMsg) := by
  simp only [trimMain, trimMainSys, hrem, List.append_nil]

/-- Second-pass walk: a request whose messages are all system-role cap-stage
fixed points with harmless contents, whose size is still over budget, and
which carries no `tools` key, is a fixed point of the enforcer. -/
theorem trim_fallthrough_fix (r : JObj) (t : Nat) (ms2 : List JObj)
    (hgt : ¬ bytesJObj r ≤ t)
    (hmsg : jGet r "messages" = some (.arr (ms2.map Json.obj)))
    (hsys : ∀ m ∈ ms2, isSystemMsg m = true)
    (hfix : ∀ m ∈ ms2, capFixed m)
    (hbad : ∀ m ∈ ms2, badLenContent m = false)
    (htools : jGet r "tools" = none) :
    aggressiveTrimRequest r t = r := by
  have hml : msgListOf r = some ms2 := by
    simp only [msgListOf, hmsg, objList_map_obj]
  have hfs : ms2.filter isSystemMsg = ms2 := List.filter_eq_self.mpr hsys
  have hfn : (ms2.filter fun m => !isSystemMsg m) = [] := by
    rw [List.filter_eq_nil_iff]
    intro m hm
    simp [hsys m hm]
  have hset : setMessages r ms2 = r := by
    simp only [setMessages]
    exact jSet_eq_self r "messages" _ hmsg
  have hdrop : dropLoop t r (ms2.filter isSystemMsg)
      (ms2.filter fun m => !isSystemMsg m) = [] := by
    rw [hfn]
    rfl
  have hba : ms2.any badLenContent = false := by
    rw [List.any_eq_false]
    intro m hm
    simp [hbad m hm]
  have hch : (if ms2.isEmpty then ms2
      else capsLoop t r [1024, 512, 256, 128] ms2) = ms2 := by
    by_cases hE : ms2.isEmpty
    · rw [if_pos hE]
    · rw [if_neg hE]
      exact capsLoop_id t r ms2 hfix (by rw [hset]; exact hgt)
  have hmap : ms2.map lastResortMsg = ms2 :=
    map_fix ms2 lastResortMsg (fun m hm => lastResort_system_fix m (hsys m hm))
  simp only [aggressiveTrimRequest, if_neg hgt, hml]
  rw [trimMain_nil_remaining r t ms2 hdrop]
  simp only [trimMainSys, hfs, hset, hch, hmap, hba, Bool.false_eq_true, if_false,
    jDel_absent r "tools" htools, if_neg hgt]

/-- C3 (confirmed): the Payload Budget Enforcer is idempotent —
`enforce(enforce(req, ceiling), ceiling) == enforce(req, ceiling)` for every
request dict (Python dicts have pairwise-distinct keys) and every ceiling. -/
theorem c3_enforce_idempotent (req : JObj) (t : Nat)
    (hnd : (req.map Prod.fst).Nodup) :
    aggressiveTrimRequest (aggressiveTrimRequest req t) t = aggressiveTrimRequest req t := by
  by_cases h1 : bytesJObj req ≤ t
  · rw [trim_of_le req t h1]
    exact trim_of_le req t h1
  cases hm : msgListOf req with
  | none =>
      have he : aggressiveTrimRequest req t = req := by
        simp only [aggressiveTrimRequest, if_neg h1, hm]
      rw [he]
      exact he
  | some msgs =>
      have he : aggressiveTrimRequest req t = trimMain req t msgs := by
        simp only [aggressiveTrimRequest, if_neg h1, hm]
      rw [he]
      by_cases h2 : bytesJObj (setMessages req ((msgs.filter isSystemMsg) ++
          dropLoop t req (msgs.filter isSystemMsg)
            (msgs.filter fun m => !isSystemMsg m))) ≤ t
      · have hmain : trimMain req t msgs = setMessages req ((msgs.filter isSystemMsg) ++
            dropLoop t req (msgs.filter isSystemMsg)
              (msgs.filter fun m => !isSystemMsg m)) := by
          simp only [trimMain, if_pos h2]
        rw [hmain]
        exact trim_of_le _ t h2
      · have hremnil : dropLoop t req (msgs.filter isSystemMsg)
            (msgs.filter fun m => !isSystemMsg m) = [] := by
          rcases dropLoop_post t req (msgs.filter isSystemMsg)
            (msgs.filter fun m => !isSystemMsg m) with h | h
          · exact h
          · exact absurd h h2
        have h2s : ¬ bytesJObj (setMessages req (msgs.filter isSystemMsg)) ≤ t := by
          rw [hremnil, List.append_nil] at h2
          exact h2
        rw [trimMain_nil_remaining req t msgs hremnil]
        by_cases h3 : (msgs.filter isSystemMsg).any badLenContent = true
        · have hmain : trimMainSys req t (msgs.filter isSystemMsg) = req := by
            simp only [trimMainSys, if_neg h2s, h3, if_true]
          rw [hmain]
          -- re-run the same first-pass branches on `req` itself
          have he₂ : aggressiveTrimRequest req t = req := by
            simp only [aggressiveTrimRequest, if_neg h1, hm]
            rw [trimMain_nil_remaining req t msgs hremnil]
            exact hmain
          exact he₂
        · -- stage-2 and later
          have hsys1 : ∀ m ∈ msgs.filter isSystemMsg, isSystemMsg m = true :=
            fun m hm => (List.mem_filter.mp hm).2
          have hbad1 : ∀ m ∈ msgs.filter isSystemMsg, badLenContent m = false := by
            intro m hm
            rcases hb : badLenContent m with _ | _
            · rfl
            · exact absurd (List.any_eq_true.mpr ⟨m, hm, hb⟩) h3
          set sys := msgs.filter isSystemMsg with hsysdef
          set msgs2 := (if sys.isEmpty then sys
            else capsLoop t (setMessages req sys) [1024, 512, 256, 128] sys) with hmsgs2
          have hsys2 : ∀ m ∈ msgs2, isSystemMsg m = true := by
            rw [hmsgs2]
            by_cases hE : sys.isEmpty
            · rw [if_pos hE]; exact hsys1
            · rw [if_neg hE]
              exact capsLoop_pointwise (fun m => isSystemMsg m = true)
                (fun cap m hp => by
                  show isSystemMsg (capMsg cap m) = true
                  rw [isSystemMsg_capMsg]; exact hp)
                t (setMessages req sys) _ sys hsys1
          have hbad2 : ∀ m ∈ msgs2, badLenContent m = false := by
            rw [hmsgs2]
            by_cases hE : sys.isEmpty
            · rw [if_pos hE]; exact hbad1
            · rw [if_neg hE]
              exact capsLoop_pointwise (fun m => badLenContent m = false)
                (fun cap m hp => by
                  show badLenContent (capMsg cap m) = false
                  rw [badLen_capMsg]; exact hp)
                t (setMessages req sys) _ sys hbad1
          by_cases h4 : bytesJObj (setMessages (setMessages req sys) msgs2) ≤ t
          · have hmain : trimMainSys req t sys = setMessages (setMessages req sys) msgs2 := by
              simp only [trimMainSys, if_neg h2s, h3, Bool.false_eq_true, if_false, ← hmsgs2,
                if_pos h4]
            rw [hmain]
            exact trim_of_le _ t h4
          · have hfix2 : ∀ m ∈ msgs2, capFixed m := by
              rw [hmsgs2]
              by_cases hE : sys.isEmpty
              · rw [if_pos hE]
                intro m hm
                rw [List.isEmpty_iff] at hE
                rw [hE] at hm
                exact absurd hm (List.not_mem_nil m)
              · rw [if_neg hE]
                rcases capsLoop_post t (setMessages req sys) sys with h | h
                · exact h
                · exfalso
                  apply h4
                  rw [hmsgs2, if_neg hE]
                  exact h
            by_cases h5 : bytesJObj (jDel (setMessages (setMessages req sys) msgs2) "tools") ≤ t
            · have hmain : trimMainSys req t sys
                  = jDel (setMessages (setMessages req sys) msgs2) "tools" := by
                simp only [trimMainSys, if_neg h2s, h3, Bool.false_eq_true, if_false, ← hmsgs2,
                  if_neg h4, if_pos h5]
              rw [hmain]
              exact trim_of_le _ t h5
            · -- full fallthrough
              have hcollapse : setMessages (setMessages req sys) msgs2 = setMessages req msgs2 :=
                setMessages_setMessages req sys msgs2
              have hnd2 : ((setMessages req msgs2).map Prod.fst).Nodup := by
                simp only [setMessages]
                exact jSet_keys_nodup req "messages" _ hnd
              have htools3 : jGet (jDel (setMessages (setMessages req sys) msgs2) "tools") "tools" = none := by
                rw [hcollapse]
                exact jGet_jDel_nodup _ "tools" hnd2
              have hmsg3 : jGet (jDel (setMessages (setMessages req sys) msgs2) "tools") "messages"
                  = some (.arr (msgs2.map Json.obj)) := by
                rw [hcollapse, jGet_jDel_ne _ "tools" "messages" (by decide)]
                simp only [setMessages]
                exact jGet_jSet_self req "messages" _
              have hmap : msgs2.map lastResortMsg = msgs2 :=
                map_fix msgs2 lastResortMsg (fun m hm => lastResort_system_fix m (hsys2 m hm))
              have hfinal : setMessages (jDel (setMessages (setMessages req sys) msgs2) "tools") (msgs2.map lastResortMsg)
                  = jDel (setMessages (setMessages req sys) msgs2) "tools" := by
                rw [hmap]
                simp only [setMessages]
                exact jSet_eq_self _ "messages" _ (by
                  simpa only [setMessages] using hmsg3)
              have hmain : trimMainSys req t sys
                  = setMessages (jDel (setMessages (setMessages req sys) msgs2) "tools")
                      (msgs2.map lastResortMsg) := by
                simp only [trimMainSys, if_neg h2s, h3, Bool.false_eq_true, if_false, ← hmsgs2,
                  if_neg h4, if_neg h5]
              rw [hmain, hfinal]
              exact trim_fallthrough_fix _ t msgs2 h5 hmsg3 hsys2 hfix2 hbad2 htools3

theorem c3_enforce_idempotent_witness :
    aggressiveTrimRequest (aggressiveTrimRequest c2req 10) 10 = aggressiveTrimRequest c2req 10 :=
  c3_enforce_idempotent c2req 10 (by decide)

/-! ## Claim C10: `validate_model` (server.py 92-106) -/

/-- The hard-coded caller-facing → upstream identifier mapping. -/
def modelMapping : List (String × String) :=
  [("gpt-4o", "openai/gpt-4o"),
   ("gpt-4o-mini", "openai/gpt-4o-mini"),
   ("gpt-4", "openai/gpt-4"),
   ("gpt-3.5-turbo", "openai/gpt-3.5-turbo")]

def lookupStr (kvs : List (String × String)) (k : String) : Option String :=
  match kvs with
  | [] => none
  | (k', v) :: rest => if k' = k then some v else lookupStr rest k

/-- `'/' in model and model.startswith(('openai/', 'microsoft/', 'meta/'))`. -/
def namespacedOk (model : String) : Bool :=
  model.data.contains '/' &&
    ("openai/".data.isPrefixOf model.data
      || "microsoft/".data.isPrefixOf model.data
      || "meta/".data.isPrefixOf model.data)

/-- `validate_model(model)`. -/
def validate_model (model : String) : String :=
  match lookupStr modelMapping model with
  | some mapped => mapped
  | none =>
      if namespacedOk model then model
      else "openai/gpt-4o-mini"

/-- C10 (confirmed): model normalization is total and never rejects — mapped
identifiers map, `openai/`, `microsoft/` or `meta/`-namespaced identifiers
pass through unchanged, and everything else silently becomes
`openai/gpt-4o-mini`; in particular the result always carries one of the
three upstream namespaces. -/
theorem c10_validate_model_total :
    (∀ model mapped, lookupStr modelMapping model = some mapped →
      validate_model model = mapped)
    ∧ (∀ model, lookupStr modelMapping model = none → namespacedOk model = true →
      validate_model model = model)
    ∧ (∀ model, lookupStr modelMapping model = none → namespacedOk model = false →
      validate_model model = "openai/gpt-4o-mini")
    ∧ (∀ model, "openai/".data.isPrefixOf (validate_model model).data
        || "microsoft/".data.isPrefixOf (validate_model model).data
        || "meta/".data.isPrefixOf (validate_model model).data) := by
  refine ⟨?_, ?_, ?_, ?_⟩
  · intro model mapped h
    simp [validate_model, h]
  · intro model h hn
    simp [validate_model, h, hn]
  · intro model h hn
    simp [validate_model, h, hn]
  · intro model
    cases hl : lookupStr modelMapping model with
    | some mapped =>
        simp only [validate_model, hl]
        simp only [modelMapping, lookupStr] at hl
        split_ifs at hl
        all_goals first
          | (injection hl with h; subst h; decide)
          | exact Option.noConfusion hl
    | none =>
        simp only [validate_model, hl]
        by_cases hn : namespacedOk model
        · rw [if_pos hn]
          unfold namespacedOk at hn
          rw [Bool.and_eq_true] at hn
          exact hn.2
        · rw [if_neg hn]
          decide

theorem c10_validate_model_total_witness :
    validate_model "gpt-4o" = "openai/gpt-4o"
    ∧ validate_model "meta/llama-3" = "meta/llama-3"
    ∧ validate_model "claude-3" = "openai/gpt-4o-mini" :=
  ⟨c10_validate_model_total.1 "gpt-4o" "openai/gpt-4o" (by rfl),
   c10_validate_model_total.2.1 "meta/llama-3" (by rfl) (by rfl),
   c10_validate_model_total.2.2.1 "claude-3" (by rfl) (by rfl)⟩

/-! ## `json.loads` (CPython's strict decoder)

A fuel-indexed recursive-descent parser over character lists.  Number
lexemes follow CPython's `NUMBER_RE` (`-?(0|[1-9]\d+*)(\.\d+)?([eE][-+]?\d+)?`
in spirit) plus the `NaN`/`Infinity`/`-Infinity` constants; objects are built
with dict-insert semantics (`jSet`), so duplicate keys collapse last-wins at
the first key's position.  One deviation: a lone UTF-16 surrogate from a
`\uXXXX` escape is not representable as a Lean `Char` and falls back to
`Char.ofNat`'s default — no claim depends on lone surrogates. -/

def quoteChar : Char := Char.ofNat 34

def backslashChar : Char := Char.ofNat 92

def isJsonWs (c : Char) : Bool := c = ' ' || c = '\t' || c = '\n' || c = '\r'

def skipWs (cs : List Char) : List Char := cs.dropWhile isJsonWs

def hexVal (c : Char) : Option Nat :=
  let n := c.toNat
  if 48 ≤ n && n ≤ 57 then some (n - 48)
  else if 97 ≤ n && n ≤ 102 then some (n - 87)
  else if 65 ≤ n && n ≤ 70 then some (n - 55)
  else none

def hex4 : List Char → Option (Nat × List Char)
  | a :: b :: c :: d :: rest =>
      match hexVal a, hexVal b, hexVal c, hexVal d with
      | some x, some y, some z, some w => some (x * 4096 + y * 256 + z * 16 + w, rest)
      | _, _, _, _ => none
  | _ => none

/-- Body of a JSON string after the opening quote; strict mode (unescaped
control characters rejected), surrogate pairs combined. -/
def parseStringBody : Nat → List Char → List Char → Option (List Char × List Char)
  | 0, _, _ => none
  | _ + 1, _, [] => none
  | fuel + 1, acc, c :: rest =>
      if c = quoteChar then some (acc.reverse, rest)
      else if c = backslashChar then
        match rest with
        | [] => none
        | e :: rest2 =>
            if e = quoteChar || e = backslashChar || e = '/' then
              parseStringBody fuel (e :: acc) rest2
            else if e = 'b' then parseStringBody fuel (Char.ofNat 8 :: acc) rest2
            else if e = 'f' then parseStringBody fuel (Char.ofNat 12 :: acc) rest2
            else if e = 'n' then parseStringBody fuel ('\n' :: acc) rest2
            else if e = 'r' then parseStringBody fuel ('\r' :: acc) rest2
            else if e = 't' then parseStringBody fuel ('\t' :: acc) rest2
            else if e = 'u' then
              match hex4 rest2 with
              | none => none
              | some (n, rest3) =>
                  if 55296 ≤ n && n ≤ 56319 then
                    match rest3 with
                    | u1 :: u2 :: rest4 =>
                        if u1 = backslashChar && u2 = 'u' then
                          match hex4 rest4 with
                          | some (m, rest5) =>
                              if 56320 ≤ m && m ≤ 57343 then
                                parseStringBody fuel
                                  (Char.ofNat (65536 + (n - 55296) * 1024 + (m - 56320)) :: acc) rest5
                              else parseStringBody fuel (Char.ofNat n :: acc) rest3
                          | none => parseStringBody fuel (Char.ofNat n :: acc) rest3
                        else parseStringBody fuel (Char.ofNat n :: acc) rest3
                    | _ => parseStringBody fuel (Char.ofNat n :: acc) rest3
                  else parseStringBody fuel (Char.ofNat n :: acc) rest3
            else none
      else if c.toNat < 32 then none
      else parseStringBody fuel (c :: acc) rest

def digitSpan (cs : List Char) : List Char × List Char :=
  (cs.takeWhile Char.isDigit, cs.dropWhile Char.isDigit)

def fracPart (cs : List Char) : List Char × List Char :=
  match cs with
  | '.' :: rest =>
      let (ds, r) := digitSpan rest
      if ds.isEmpty then ([], cs) else ('.' :: ds, r)
  | _ => ([], cs)

def expPart (cs : List Char) : List Char × List Char :=
  match cs with
  | e :: '+' :: rest =>
      if e = 'e' || e = 'E' then
        let (ds, r) := digitSpan rest
        if ds.isEmpty then ([], cs) else (e :: '+' :: ds, r)
      else ([], cs)
  | e :: '-' :: rest =>
      if e = 'e' || e = 'E' then
        let (ds, r) := digitSpan rest
        if ds.isEmpty then ([], cs) else (e :: '-' :: ds, r)
      else ([], cs)
  | e :: rest =>
      if e = 'e' || e = 'E' then
        let (ds, r) := digitSpan rest
        if ds.isEmpty then ([], cs) else (e :: ds, r)
      else ([], cs)
  | _ => ([], cs)

/-- The number lexeme at the head of `cs` (CPython `NUMBER_RE`). -/
def parseNumber (cs : List Char) : Option (List Char × List Char) :=
  let signed : Option (List Char × List Char) :=
    match cs with
    | c :: rest => if c = '-' then some (['-'], rest) else some ([], cs)
    | [] => none
  match signed with
  | none => none
  | some (sign, cs1) =>
      match cs1 with
      | c :: rest =>
          if c = '0' then
            let (fr, r1) := fracPart rest
            let (ex, r2) := expPart r1
            some (sign ++ '0' :: (fr ++ ex), r2)
          else if c.isDigit then
            let (ds, r0) := digitSpan rest
            let (fr, r1) := fracPart r0
            let (ex, r2) := expPart r1
            some (sign ++ c :: (ds ++ fr ++ ex), r2)
          else none
      | [] => none

mutual

/-- One JSON value starting exactly at the head of `cs` (no leading
whitespace). -/
def parseValue : Nat → List Char → Option (Json × List Char)
  | 0, _ => none
  | _ + 1, [] => none
  | fuel + 1, c :: rest =>
      if c = quoteChar then
        match parseStringBody (rest.length + 1) [] rest with
        | some (s, r) => some (.str ⟨s⟩, r)
        | none => none
      else if c = lbrace then parseObjAfterBrace fuel (skipWs rest)
      else if c = '[' then parseArrAfterBracket fuel (skipWs rest)
      else if "null".data.isPrefixOf (c :: rest) then some (.null, (c :: rest).drop 4)
      else if "true".data.isPrefixOf (c :: rest) then some (.bool true, (c :: rest).drop 4)
      else if "false".data.isPrefixOf (c :: rest) then some (.bool false, (c :: rest).drop 5)
      else if "NaN".data.isPrefixOf (c :: rest) then some (.num "NaN", (c :: rest).drop 3)
      else if "Infinity".data.isPrefixOf (c :: rest) then some (.num "Infinity", (c :: rest).drop 8)
      else if c = '-' && "Infinity".data.isPrefixOf rest then
        some (.num "-Infinity", rest.drop 8)
      else
        match parseNumber (c :: rest) with
        | some (lexeme, r) => some (.num ⟨lexeme⟩, r)
        | none => none

/-- Object parsing, positioned after `{` with whitespace skipped. -/
def parseObjAfterBrace : Nat → List Char → Option (Json × List Char)
  | 0, _ => none
  | _ + 1, [] => none
  | fuel + 1, c :: rest =>
      if c = rbrace then some (.obj [], rest)
      else parseObjMember fuel (c :: rest) []

/-- One `"key": value` member (position: at the key's opening quote),
followed by `,` (next member) or the closing brace. -/
def parseObjMember : Nat → List Char → JObj → Option (Json × List Char)
  | 0, _, _ => none
  | _ + 1, [], _ => none
  | fuel + 1, c :: rest, acc =>
      if c = quoteChar then
        match parseStringBody (rest.length + 1) [] rest with
        | none => none
        | some (key, r1) =>
            match skipWs r1 with
            | ':' :: r2 =>
                match parseValue fuel (skipWs r2) with
                | none => none
                | some (v, r3) =>
                    let acc' := jSet acc ⟨key⟩ v
                    match skipWs r3 with
                    | ',' :: r4 => parseObjMember fuel (skipWs r4) acc'
                    | d :: r4 => if d = rbrace then some (.obj acc', r4) else none
                    | [] => none
            | _ => none
      else none

/-- Array parsing, positioned after `[` with whitespace skipped. -/
def parseArrAfterBracket : Nat → List Char → Option (Json × List Char)
  | 0, _ => none
  | _ + 1, [] => none
  | fuel + 1, c :: rest =>
      if c = ']' then some (.arr [], rest)
      else parseArrElem fuel (c :: rest) []

def parseArrElem : Nat → List Char → List Json → Option (Json × List Char)
  | 0, _, _ => none
  | fuel + 1, cs, acc =>
      match parseValue fuel cs with
      | none => none
      | some (v, r1) =>
          match skipWs r1 with
          | ',' :: r2 => parseArrElem fuel (skipWs r2) (acc ++ [v])
          | ']' :: r2 => some (.arr (acc ++ [v]), r2)
          | _ => none

end

/-- `json.loads(s)`: the whole input is one JSON document (surrounding
whitespace allowed, anything else is "Extra data" and fails). -/
def pyJsonLoads (cs : List Char) : Option Json :=
  match parseValue (cs.length + 1) (skipWs cs) with
  | some (v, rest) => if (skipWs rest).isEmpty then some v else none
  | none => none

/-! ## Tool-Call Extractor — `extract_tool_calls` (utils_tool_calls.py 12-42)

The two regexes are embedded as explicit scanners:
`INLINE_TOOL_OBJ = \x7b[^\x7b\x7d]*"tool_call"[^\x7b\x7d]*\x7d` matches a
brace pair with brace-free interior containing the quoted key, and
`TOOL_JSON_BLOCK` matches a fenced ```json block whose lazy group is the
shortest brace-to-brace span followed by optional whitespace and the closing
fence.  `re.findall` continues after each match and otherwise advances one
position. -/

def backtickChar : Char := Char.ofNat 96

/-- `\s` of Python `re` (ASCII part: space, tab, newline, return, vertical
tab, form feed; non-ASCII unicode spaces are not used by this repository). -/
def isReWs (c : Char) : Bool :=
  c = ' ' || c = '\t' || c = '\n' || c = '\r' || c.toNat = 11 || c.toNat = 12

/-- `str.strip()` whitespace (ASCII part plus the C1 separators Python
considers space; exotic unicode spaces are not used by this repository). -/
def isPyStripWs (c : Char) : Bool :=
  isReWs c || (28 ≤ c.toNat && c.toNat ≤ 31) || c.toNat = 133 || c.toNat = 160

def pyStrip (cs : List Char) : List Char :=
  ((cs.dropWhile isPyStripWs).reverse.dropWhile isPyStripWs).reverse

/-- Does `pat` occur as a contiguous subsequence of the list? -/
def containsSeq (pat : List Char) : List Char → Bool
  | [] => pat.isEmpty
  | c :: rest => pat.isPrefixOf (c :: rest) || containsSeq pat rest

def toolCallKeyPat : List Char := quoteChar :: ("tool_call".data ++ [quoteChar])

/-- All matches of `INLINE_TOOL_OBJ`, left to right, non-overlapping. -/
def inlineScan : Nat → List Char → List (List Char)
  | 0, _ => []
  | _ + 1, [] => []
  | fuel + 1, c :: rest =>
      if c = lbrace then
        let inner := rest.takeWhile (fun d => !(d = lbrace || d = rbrace))
        let after := rest.drop inner.length
        match after with
        | [] => []
        | d :: rest2 =>
            if d = rbrace && containsSeq toolCallKeyPat inner then
              (lbrace :: (inner ++ [rbrace])) :: inlineScan fuel rest2
            else inlineScan fuel rest
      else inlineScan fuel rest

def inlineFindall (cs : List Char) : List (List Char) := inlineScan (cs.length + 1) cs

def jsonFencePat : List Char :=
  backtickChar :: backtickChar :: backtickChar :: ('j' :: 's' :: 'o' :: 'n' :: [])

def fencePat : List Char := [backtickChar, backtickChar, backtickChar]

/-- The lazy `(\x7b.*?\x7d)` group: the shortest body whose closing brace is
followed by `\s*` and the closing fence.  Returns the captured group and the
remainder after the closing fence. -/
def lazyBody : Nat → List Char → List Char → Option (List Char × List Char)
  | 0, _, _ => none
  | _ + 1, _, [] => none
  | fuel + 1, acc, c :: rest =>
      if c = rbrace then
        let r := rest.dropWhile isReWs
        if fencePat.isPrefixOf r then
          some (lbrace :: (acc.reverse ++ [rbrace]), r.drop 3)
        else lazyBody fuel (c :: acc) rest
      else lazyBody fuel (c :: acc) rest

/-- All captured groups of `TOOL_JSON_BLOCK`, left to right. -/
def blockScan : Nat → List Char → List (List Char)
  | 0, _ => []
  | _ + 1, [] => []
  | fuel + 1, c :: rest =>
      if jsonFencePat.isPrefixOf (c :: rest) then
        let after := (c :: rest).drop 7
        let afterWs := after.dropWhile isReWs
        match afterWs with
        | d :: dr =>
            if d = lbrace then
              match lazyBody (dr.length + 1) [] dr with
              | some (body, rem) => body :: blockScan fuel rem
              | none => blockScan fuel rest
            else blockScan fuel rest
        | [] => []
      else blockScan fuel rest

def blockFindall (cs : List Char) : List (List Char) := blockScan (cs.length + 1) cs

/-- One parse candidate: `json.loads` it, require a dict with a truthy
`tool_call` member, and build `{'name': ..., 'args': ...}`.  `none` models
both a silent skip and a swallowed exception (`tool_call` truthy but not a
dict, so `.get` raises and the `except` clause skips the candidate). -/
def candidateIntent (cs : List Char) : Option JObj :=
  match pyJsonLoads cs with
  | some (.obj kvs) =>
      match jGet kvs "tool_call" with
      | some tc =>
          if tc.truthy then
            match tc with
            | .obj tkvs =>
                some [("name", (jGet tkvs "name").getD Json.null),
                      ("args", (jGet tkvs "arguments").getD (Json.obj []))]
            | _ => none
          else none
      | none => none
  | _ => none

/-- `extract_tool_calls(content)`: the direct parse of the stripped text,
then every fenced-block candidate, then every inline candidate; each failed
candidate is skipped (`continue`) without aborting the others. -/
def extract_tool_calls (content : String) : List JObj :=
  if content.data.isEmpty then []
  else
    let direct :=
      match candidateIntent (pyStrip content.data) with
      | some i => [i]
      | none => []
    let blocks := (blockFindall content.data).foldr
      (fun c acc => match candidateIntent c with
        | some i => i :: acc
        | none => acc) []
    let inls := (inlineFindall content.data).foldr
      (fun c acc => match candidateIntent c with
        | some i => i :: acc
        | none => acc) []
    direct ++ (blocks ++ inls)

/-- The parse candidates the extractor examines, in examination order. -/
def extractionCandidates (content : String) : List (List Char) :=
  pyStrip content.data :: (blockFindall content.data ++ inlineFindall content.data)

theorem foldr_skip_eq_filterMap (f : List Char → Option JObj) (l : List (List Char)) :
    l.foldr (fun c acc => match f c with
      | some i => i :: acc
      | none => acc) [] = l.filterMap f := by
  induction l with
  | nil => rfl
  | cons c rest ih =>
      simp only [List.foldr, List.filterMap_cons, ih]
      cases f c <;> simp

def exactToolCallText : String :=
  "\x7b\"tool_call\":\x7b\"name\":\"add\",\"arguments\":\x7b\"a\":1,\"b\":2\x7d\x7d\x7d"

/-- A fenced valid candidate followed by a malformed inline candidate
(`\x7b"tool_call":bad\x7d` matches the inline regex but is not JSON). -/
def mixedToolCallText : String :=
  "```json\n\x7b\"tool_call\": \x7b\"name\": \"x\", \"arguments\": \x7b\x7d\x7d\x7d\n``` \x7b\"tool_call\":bad\x7d"

/-- C6 (confirmed): the extractor returns exactly one `add`/`(a:1,b:2)`
intent on the exact tool-call text, the empty list on `"hello"`, equals the
per-candidate `filterMap` of its candidate list on every input (so it is
total — never raises — and a malformed candidate contributes zero intents
without aborting the others), and on a text mixing a valid fenced candidate
with a malformed inline candidate it returns exactly the valid intent. -/
theorem c6_extractor :
    extract_tool_calls exactToolCallText
      = [[("name", Json.str "add"),
          ("args", Json.obj [("a", Json.num "1"), ("b", Json.num "2")])]]
    ∧ extract_tool_calls "hello" = []
    ∧ (∀ content, extract_tool_calls content
        = if content.data.isEmpty then []
          else (extractionCandidates content).filterMap candidateIntent)
    ∧ extract_tool_calls mixedToolCallText
      = [[("name", Json.str "x"), ("args", Json.obj [])]] := by
  refine ⟨by rfl, by rfl, ?_, by rfl⟩
  intro content
  by_cases h : content.data.isEmpty
  · simp only [extract_tool_calls, if_pos h]
  · simp only [extract_tool_calls, extractionCandidates, if_neg h,
      foldr_skip_eq_filterMap, List.filterMap_cons, List.filterMap_append]
    cases candidateIntent (pyStrip content.data) <;> simp

/-! ## Discovery — `n8n_discovery.py`

`_generate_variants` returns a Python `set`; it is modelled as the list of
insertions in program order (possibly with duplicates).  A Python set
iterates in unspecified order, so every theorem about resolution is stated
order-robustly: each candidate that hits the cache is shown to yield the
same entry, which makes the result independent of the iteration order. -/

def isAlnumAscii (c : Char) : Bool :=
  (48 ≤ c.toNat && c.toNat ≤ 57) || (65 ≤ c.toNat && c.toNat ≤ 90)
    || (97 ≤ c.toNat && c.toNat ≤ 122)

/-- ASCII `str.lower()` (the repository's names are ASCII). -/
def pyLower (cs : List Char) : List Char :=
  cs.map fun c => if 65 ≤ c.toNat && c.toNat ≤ 90 then Char.ofNat (c.toNat + 32) else c

def replaceChar (a b : Char) (cs : List Char) : List Char :=
  cs.map fun c => if c = a then b else c

/-- `re.split(r'[^0-9A-Za-z]+', s)` keeping non-empty tokens. -/
def tokenizeGo (acc : List Char) : List Char → List (List Char)
  | [] => if acc.isEmpty then [] else [acc.reverse]
  | c :: rest =>
      if isAlnumAscii c then tokenizeGo (c :: acc) rest
      else if acc.isEmpty then tokenizeGo [] rest
      else acc.reverse :: tokenizeGo [] rest

def tokenizeName (cs : List Char) : List (List Char) := tokenizeGo [] cs

/-- The segment after the last `'.'`. -/
def lastSegGo (acc : List Char) : List Char → List Char
  | [] => acc.reverse
  | c :: rest => if c = '.' then lastSegGo [] rest else lastSegGo (c :: acc) rest

def lastDotSegment (cs : List Char) : List Char := lastSegGo [] cs

def intercalateUnderscore : List (List Char) → List Char
  | [] => []
  | [t] => t
  | t :: u :: rest => t ++ '_' :: intercalateUnderscore (u :: rest)

/-- `_generate_variants(s)`, in insertion order. -/
def generateVariants (s0 : String) : List String :=
  if s0.data.isEmpty then []
  else
    let s := pyStrip s0.data
    let base : List (List Char) :=
      [s, pyLower s,
       replaceChar ' ' '_' s, replaceChar ' ' '-' s,
       replaceChar '-' '_' s, replaceChar '_' '-' s, replaceChar '_' ' ' s,
       s.filter isAlnumAscii, pyLower (s.filter isAlnumAscii)]
    let dotted : List (List Char) :=
      if s.contains '.' then [lastDotSegment s, pyLower (lastDotSegment s)] else []
    let toks := tokenizeName s
    let tokVars : List (List Char) := toks.foldr
      (fun tok acc => tok :: pyLower tok :: ("functions.".data ++ tok)
        :: ("functions.".data ++ pyLower tok) :: acc) []
    let joined := intercalateUnderscore toks
    let joinedVars : List (List Char) :=
      if joined.isEmpty then []
      else [joined, pyLower joined, replaceChar '_' '-' joined]
    (base ++ dotted ++ tokVars ++ joinedVars).map String.mk

/-- A discovery cache entry (the dicts built by `refresh`).  The shared
auth-header dict is per-refresh constant and carried as a flag. -/
structure DiscEntry where
  url : Option String := none
  node : Option String := none
  workflow : Option String := none
  toolType : Option String := none
  params : JObj := []
  hasHeaders : Bool := false

abbrev DiscMap := List (String × DiscEntry)

def mapGet (m : DiscMap) (k : String) : Option DiscEntry :=
  match m with
  | [] => none
  | (k', v) :: rest => if k' = k then some v else mapGet rest k

/-- `if v not in mapping: mapping[v] = entry` over a variant list. -/
def registerVariants (m : DiscMap) (entry : DiscEntry) : List String → DiscMap
  | [] => m
  | v :: rest =>
      match mapGet m v with
      | some _ => registerVariants m entry rest
      | none => registerVariants (m ++ [(v, entry)]) entry rest

/-- One workflow node; `path` models `parameters.get('path') or ''` for the
string-or-absent paths client workflows carry, `params` keeps the raw
parameter dict for http-call tools. -/
structure WfNode where
  name : Option String := none
  webhookId : Option String := none
  ntype : Option String := none
  path : String := ""
  params : JObj := []

structure Workflow where
  id : Option String := none
  name : Option String := none
  active : Bool := false
  nodes : List WfNode := []

/-- `node.get('name') or wf_name or ''`. -/
def nodeNameOf (node : WfNode) (wfName : Option String) : String :=
  match node.name with
  | some s => if s.data.isEmpty then (match wfName with
      | some w => if w.data.isEmpty then "" else w
      | none => "") else s
  | none =>
      match wfName with
      | some w => if w.data.isEmpty then "" else w
      | none => ""

def stripSlashes (cs : List Char) : List Char :=
  ((cs.dropWhile (· = '/')).reverse.dropWhile (· = '/')).reverse

/-- The common variant set for a node (node name, workflow name,
`path.strip('/')` — each only when truthy). -/
def nodeVariants (node : WfNode) (wfName : Option String) : List String :=
  let nn := nodeNameOf node wfName
  (if nn.data.isEmpty then [] else generateVariants nn)
    ++ (match wfName with
        | some w => if w.data.isEmpty then [] else generateVariants w
        | none => [])
    ++ (if node.path.data.isEmpty then [] else generateVariants ⟨stripSlashes node.path.data⟩)

def strAppend (a b : String) : String := ⟨a.data ++ b.data⟩

def endsWithStr (suffix s : String) : Bool := suffix.data.isSuffixOf s.data

/-- The `else` branch for nodes without a truthy `webhookId`: classic
webhook node types, then `httpRequestTool` nodes; other node types register
nothing. -/
def processNodeNoHook (baseUrl : String) (hasHeaders : Bool) (wf : Workflow)
    (m : DiscMap) (node : WfNode) : DiscMap :=
  let variants := nodeVariants node wf.name
  let nn := nodeNameOf node wf.name
  let ntypeL : String := ⟨pyLower (node.ntype.getD "").data⟩
  let wfIdStr : String := wf.id.getD "None"
  if endsWithStr ".webhook" ntypeL || ntypeL = "n8n-nodes-base.webhook" then
    let endpoints :=
      (if node.path.data.isEmpty then []
       else [strAppend baseUrl (strAppend "/webhook/"
              (strAppend wfIdStr (strAppend "/webhook/" node.path)))])
        ++ [strAppend baseUrl (strAppend "/webhook/" wfIdStr)]
    endpoints.foldl
      (fun acc ep => registerVariants acc
        { url := some ep, node := some nn, workflow := wf.name,
          hasHeaders := hasHeaders } variants) m
  else if ntypeL = "n8n-nodes-base.httprequesttool"
      || endsWithStr ".httprequesttool" ntypeL then
    let toolKey : String :=
      if (pyStrip nn.data).isEmpty then
        match wf.name with
        | some w => if w.data.isEmpty then wf.id.getD "" else w
        | none => wf.id.getD ""
      else ⟨pyStrip nn.data⟩
    let toolVariants := generateVariants toolKey
      ++ (match wf.name with
          | some w => if w.data.isEmpty then [] else generateVariants w
          | none => [])
    let toolParams : JObj :=
      [("url", (jGet node.params "url").getD .null),
       ("responseType", (jGet node.params "responseType").getD .null),
       ("onlyContent", (jGet node.params "onlyContent").getD .null),
       ("optimizeResponse", (jGet node.params "optimizeResponse").getD .null),
       ("toolDescription", (jGet node.params "toolDescription").getD .null),
       ("raw_parameters", .obj node.params)]
    registerVariants m
      { node := some nn, workflow := wf.name, toolType := some "httpRequestTool",
        params := toolParams, hasHeaders := hasHeaders } toolVariants
  else m

/-- Register one node of an active workflow into the mapping. -/
def processNode (baseUrl : String) (hasHeaders : Bool) (wf : Workflow)
    (m : DiscMap) (node : WfNode) : DiscMap :=
  let variants := nodeVariants node wf.name
  let nn := nodeNameOf node wf.name
  match node.webhookId with
  | some wid =>
      if wid.data.isEmpty then processNodeNoHook baseUrl hasHeaders wf m node
      else
        let epBase := strAppend baseUrl (strAppend "/webhook/" wid)
        let endpoints :=
          (if node.path.data.isEmpty then [] else [strAppend epBase (strAppend "/" node.path)])
            ++ [epBase, strAppend epBase "/chat", strAppend epBase "/webhook"]
        endpoints.foldl
          (fun acc ep => registerVariants acc
            { url := some ep, node := some nn, workflow := wf.name,
              hasHeaders := hasHeaders } variants) m
  | none => processNodeNoHook baseUrl hasHeaders wf m node

/-- Inactive workflows are skipped; nodes of an active workflow register in
order. -/
def processWorkflow (baseUrl : String) (hasHeaders : Bool) (m : DiscMap)
    (wf : Workflow) : DiscMap :=
  if wf.active then wf.nodes.foldl (processNode baseUrl hasHeaders wf) m else m

/-- The mapping built by one successful `refresh` pass. -/
def buildMapping (baseUrl : String) (hasHeaders : Bool) (wfs : List Workflow) : DiscMap :=
  wfs.foldl (processWorkflow baseUrl hasHeaders) []

structure DiscoveryState where
  cache : DiscMap := []
  lastRefresh : Nat := 0
  ttl : Nat := 60
  aliases : DiscMap := []

/-- `ToolDiscovery.refresh()`: on success the whole mapping and the refresh
timestamp are replaced; when the workflow API is unreachable
(`fetched = none`, the `except` path) the method returns the empty local
`mapping` **without** touching `self._cache` or `self._last_refresh`. -/
def refreshApply (baseUrl : String) (hasHeaders : Bool)
    (fetched : Option (List Workflow)) (now : Nat) (st : DiscoveryState) :
    DiscoveryState × DiscMap :=
  match fetched with
  | none => (st, [])
  | some wfs =>
      let m := buildMapping baseUrl hasHeaders wfs
      ({ st with cache := m, lastRefresh := now }, m)

/-- The candidate keys `get` probes, one Python-set iteration order. -/
def getCandidates (key : String) : List String :=
  key :: (⟨pyLower key.data⟩ : String) :: generateVariants key
    ++ (if key.data.contains '.' then
          [⟨lastDotSegment key.data⟩, ⟨pyLower (lastDotSegment key.data)⟩]
        else [])

def cacheLookup (cache : DiscMap) : List String → Option DiscEntry
  | [] => none
  | c :: rest =>
      match mapGet cache c with
      | some e => some e
      | none => cacheLookup cache rest

/-- `ToolDiscovery.get(key)`: alias layers first (they bypass staleness),
then a synchronous refresh when stale (a failed refresh keeps the old
cache), then the candidate probe over the cache. -/
def toolDiscoveryGet (baseUrl : String) (hasHeaders : Bool)
    (fetched : Option (List Workflow)) (now : Nat) (st : DiscoveryState)
    (key : String) : Option DiscEntry × DiscoveryState :=
  match mapGet st.aliases key with
  | some e => (some e, st)
  | none =>
      match mapGet st.aliases ⟨pyLower key.data⟩ with
      | some e => (some e, st)
      | none =>
          let st' := if now - st.lastRefresh > st.ttl then
              (refreshApply baseUrl hasHeaders fetched now st).1
            else st
          (cacheLookup st'.cache (getCandidates key), st')

/-! ## Claim C7: name-variant equivalence of discovery resolution -/

def jokeWorkflow : Workflow :=
  { id := some "wf1", active := true,
    nodes := [{ name := some "Joke API", webhookId := some "w1" }] }

def jokeEntry : DiscEntry :=
  { url := some "http://n8n:5678/webhook/w1", node := some "Joke API" }

def jokeCache : DiscMap := buildMapping "http://n8n:5678" false [jokeWorkflow]

/-- C7 (amended): in a discovery generation where the node named
`"Joke API"` is discovered and no earlier registration shadows its variants
(here: it is the only discovered node), resolving `"Joke_API"`, `"joke-api"`
and `"joke_api"` each returns that node's entry; moreover every cache entry
of the generation "is" that entry, so the result is independent of the
unspecified Python-set iteration order over the probe candidates.
(First-write-wins across nodes can shadow the node entirely — see the
counterexample theorem.) -/
theorem c7_variant_equivalence :
    cacheLookup jokeCache (getCandidates "Joke_API") = some jokeEntry
    ∧ cacheLookup jokeCache (getCandidates "joke-api") = some jokeEntry
    ∧ cacheLookup jokeCache (getCandidates "joke_api") = some jokeEntry
    ∧ (∀ c v, mapGet jokeCache c = some v → v = jokeEntry) := by
  refine ⟨by rfl, by rfl, by rfl, ?_⟩
  intro c v h
  have hc : jokeCache = (jokeCache.map Prod.fst).map (fun k => (k, jokeEntry)) := by rfl
  rw [hc] at h
  revert h
  generalize jokeCache.map Prod.fst = keys
  induction keys with
  | nil => intro h; exact Option.noConfusion h
  | cons k rest ih =>
      intro h
      simp only [List.map_cons, mapGet] at h
      split_ifs at h
      · injection h with h
        exact h.symm
      · exact ih h

/-- The shadowing generation: an earlier node named `"Joke_API"` (workflow
`"joke-api"`, webhook path `"joke api"`) claims every variant first, so the
later `"Joke API"` node registers nothing. -/
def shadowWorkflows : List Workflow :=
  [{ id := some "wfA", name := some "joke-api", active := true,
     nodes := [{ name := some "Joke_API", webhookId := some "wA", path := "joke api" }] },
   { id := some "wfB", active := true,
     nodes := [{ name := some "Joke API", webhookId := some "wB" }] }]

def shadowCache : DiscMap := buildMapping "http://n8n:5678" false shadowWorkflows

/-- C7 counterexample: a discovery generation in which a node named
`"Joke API"` was discovered (second workflow, active, processed), yet
resolving `"Joke_API"`, `"joke-api"` and `"joke_api"` returns the entry of
the *other* node (`"Joke_API"` of the first workflow, first-write-wins),
and no cache entry at all belongs to the `"Joke API"` node — refuting "the
one registered for that node" for this generation. -/
theorem c7_counterexample :
    ((cacheLookup shadowCache (getCandidates "Joke_API")).map DiscEntry.node
        = some (some "Joke_API"))
    ∧ ((cacheLookup shadowCache (getCandidates "joke-api")).map DiscEntry.node
        = some (some "Joke_API"))
    ∧ ((cacheLookup shadowCache (getCandidates "joke_api")).map DiscEntry.node
        = some (some "Joke_API"))
    ∧ shadowCache.all (fun kv => kv.2.node = some "Joke_API") = true
    ∧ (shadowWorkflows.map fun wf => (wf.active, wf.nodes.map WfNode.name))
        = [(true, [some "Joke_API"]), (true, [some "Joke API"])] := by
  exact ⟨by rfl, by rfl, by rfl, by rfl, by rfl⟩

/-! ## Tool Executor — `ToolHandler.execute_tool` (tool_handler.py 23-84)

The HTTP layer is an oracle `http : Nat → HttpResp` giving the outcome of
the n-th POST to a tool endpoint; the two discovery consultations (initial
resolution, and re-resolution after the 404-triggered refresh) are the two
`Option DiscEntry` fields of `DiscProbe` — they are what
`toolDiscoveryGet`/`refreshApply` (modelled above) produce at those two
program points. -/

inductive HttpResp where
  | ok (isJson : Bool) (body : String)
  | statusErr (code : Nat) (body : String)
  | reqErr (msg : String)

/-- A registry value: a bare URL string or a `{url, headers}` object. -/
inductive RegVal where
  | strUrl (u : String)
  | dictVal (url : Option String) (hasHeaders : Bool)

abbrev Registry := List (String × RegVal)

def regGet (r : Registry) (k : String) : Option RegVal :=
  match r with
  | [] => none
  | (k', v) :: rest => if k' = k then some v else regGet rest k

/-- `if not endpoint:` — falsy registry values ("" or an empty dict) do not
count as a resolution. -/
def RegVal.truthy : RegVal → Bool
  | .strUrl u => !u.data.isEmpty
  | .dictVal url hasHeaders => url.isSome || hasHeaders

def regGetTruthy (r : Registry) (k : String) : Option RegVal :=
  match regGet r k with
  | some v => if v.truthy then some v else none
  | none => none

/-- The two discovery consultations execute_tool can make. -/
structure DiscProbe where
  initialGet : Option DiscEntry := none
  refreshedGet : Option DiscEntry := none

/-- Registry resolution (steps 1-2 of `execute_tool`): exact name, then the
last dot segment with and without the `functions.` prefix, then the
discovery cache; yields the URL to call, or `none` → "Unknown tool".  An
entry whose `url` is falsy (an http-call tool entry, or an empty string)
does not resolve. -/
def resolveUrl (registry : Registry) (initialGet : Option DiscEntry)
    (name : String) : Option String :=
  let reg1 :=
    match regGetTruthy registry name with
    | some v => some v
    | none =>
        let alt : String := ⟨lastDotSegment name.data⟩
        match regGetTruthy registry alt with
        | some v => some v
        | none => regGetTruthy registry (strAppend "functions." alt)
  let fromReg : Option String :=
    match reg1 with
    | some (.strUrl u) => if u.data.isEmpty then none else some u
    | some (.dictVal url _) =>
        match url with
        | some u => if u.data.isEmpty then none else some u
        | none => none
    | none => none
  match fromReg with
  | some u => some u
  | none =>
      match initialGet with
      | some e =>
          match e.url with
          | some u => if u.data.isEmpty then none else some u
          | none => none
      | none => none

def unknownToolMsg (name : String) : String :=
  strAppend "400: Unknown tool: " name

def toolStatusErrMsg (name : String) (code : Nat) : String :=
  strAppend "502: Tool " (strAppend name
    (strAppend " returned error: " (toString code)))

def toolReqErrMsg (msg : String) : String :=
  strAppend "502: Tool execution failed: " msg

/-- `resp.json()` when the content type says JSON, else `resp.text`;
a JSON decode error raises (propagating out of `execute_tool`). -/
abbrev ToolResult := Json ⊕ String

def decodeBody (isJson : Bool) (body : String) : Except String ToolResult :=
  if isJson then
    match pyJsonLoads body.data with
    | some j => .ok (.inl j)
    | none => .error "Expecting value: json decode error"
  else .ok (.inr body)

/-- The outcome of one `execute_tool` run, with observability counters:
`posts` = POSTs made to tool endpoints, `refreshes` = discovery refreshes
triggered by the 404 handler. -/
structure ExecOutcome where
  result : Except String ToolResult
  posts : Nat
  refreshes : Nat

/-- `execute_tool(name, args)`; `args` only flows into the oracle. -/
def execute_tool (registry : Registry) (disc : DiscProbe)
    (http : Nat → HttpResp) (name : String) : ExecOutcome :=
  match resolveUrl registry disc.initialGet name with
  | none => { result := .error (unknownToolMsg name), posts := 0, refreshes := 0 }
  | some _ =>
      match http 0 with
      | .ok isJson body =>
          { result := decodeBody isJson body, posts := 1, refreshes := 0 }
      | .reqErr msg =>
          { result := .error (toolReqErrMsg msg), posts := 1, refreshes := 0 }
      | .statusErr code _ =>
          if code = 404 then
            -- one synchronous refresh, one re-resolution, at most one retry
            match disc.refreshedGet with
            | some e2 =>
                match e2.url with
                | some _ =>
                    match http 1 with
                    | .ok isJson2 body2 =>
                        match decodeBody isJson2 body2 with
                        | .ok r => { result := .ok r, posts := 2, refreshes := 1 }
                        | .error _ =>
                            -- decode failure on the retry is swallowed by the
                            -- handler's `except` and reported as the original 404
                            { result := .error (toolStatusErrMsg name 404),
                              posts := 2, refreshes := 1 }
                    | _ =>
                        { result := .error (toolStatusErrMsg name 404),
                          posts := 2, refreshes := 1 }
                | none =>
                    { result := .error (toolStatusErrMsg name 404),
                      posts := 1, refreshes := 1 }
            | none =>
                { result := .error (toolStatusErrMsg name 404),
                  posts := 1, refreshes := 1 }
          else
            { result := .error (toolStatusErrMsg name code),
              posts := 1, refreshes := 0 }

/-- C4 (confirmed): when the endpoint answers not-found, exactly one
discovery refresh runs and the call is retried at most once with the
re-resolved endpoint; a failing retry, a failed re-resolution, or any
non-404 error status is a dispatch failure with no further retry — never
more than 2 POSTs, and a tool that 404s twice fails after exactly one
retry. -/
theorem c4_executor_retry_bound (registry : Registry) (disc : DiscProbe)
    (http : Nat → HttpResp) (name : String) :
    (execute_tool registry disc http name).posts ≤ 2
    ∧ (execute_tool registry disc http name).refreshes ≤ 1
    ∧ (∀ code body, resolveUrl registry disc.initialGet name ≠ none →
        http 0 = .statusErr code body → code = 404 →
        (execute_tool registry disc http name).refreshes = 1)
    ∧ (∀ code body, resolveUrl registry disc.initialGet name ≠ none →
        http 0 = .statusErr code body → code ≠ 404 →
        (execute_tool registry disc http name).posts = 1
          ∧ (execute_tool registry disc http name).result
              = .error (toolStatusErrMsg name code))
    ∧ (∀ body body2 e2 u2, resolveUrl registry disc.initialGet name ≠ none →
        http 0 = .statusErr 404 body →
        disc.refreshedGet = some e2 → e2.url = some u2 →
        http 1 = .statusErr 404 body2 →
        (execute_tool registry disc http name).posts = 2
          ∧ (execute_tool registry disc http name).result
              = .error (toolStatusErrMsg name 404))
    ∧ (∀ body, resolveUrl registry disc.initialGet name ≠ none →
        http 0 = .statusErr 404 body →
        disc.refreshedGet = none →
        (execute_tool registry disc http name).posts = 1
          ∧ (execute_tool registry disc http name).result
              = .error (toolStatusErrMsg name 404)) := by
  refine ⟨?_, ?_, ?_, ?_, ?_, ?_⟩
  · unfold execute_tool
    repeat' split
    all_goals simp
  · unfold execute_tool
    repeat' split
    all_goals simp
  · intro code body hres hhttp hcode
    subst hcode
    cases hr : resolveUrl registry disc.initialGet name with
    | none => exact absurd hr hres
    | some u =>
        simp only [execute_tool, hr, hhttp, if_pos rfl]
        repeat' split
        all_goals simp_all
  · intro code body hres hhttp hcode
    cases hr : resolveUrl registry disc.initialGet name with
    | none => exact absurd hr hres
    | some u =>
        simp only [execute_tool, hr, hhttp]
        rw [if_neg hcode]
        exact ⟨rfl, rfl⟩
  · intro body body2 e2 u2 hres hhttp hget hurl hhttp2
    cases hr : resolveUrl registry disc.initialGet name with
    | none => exact absurd hr hres
    | some u =>
        simp only [execute_tool, hr, hhttp, if_pos rfl, hget, hurl, hhttp2]
        exact ⟨rfl, rfl⟩
  · intro body hres hhttp hget
    cases hr : resolveUrl registry disc.initialGet name with
    | none => exact absurd hr hres
    | some u =>
        simp only [execute_tool, hr, hhttp, if_pos rfl, hget]
        exact ⟨rfl, rfl⟩

theorem c4_executor_retry_bound_witness :
    (execute_tool [("add", RegVal.strUrl "http://x/add")] {}
      (fun _ => HttpResp.statusErr 404 "not registered") "add").posts = 1
    ∧ (execute_tool [("add", RegVal.strUrl "http://x/add")] {}
        (fun _ => HttpResp.statusErr 404 "not registered") "add").result
        = .error (toolStatusErrMsg "add" 404) :=
  (c4_executor_retry_bound [("add", RegVal.strUrl "http://x/add")] {}
    (fun _ => HttpResp.statusErr 404 "not registered") "add").2.2.2.2.2
    "not registered" (by decide) rfl rfl

/-! ## Batch execution — `run_tool_calls_async` (tool_handler.py 98-138) -/

def jTruthyOr (a b : Json) : Json := if a.truthy then a else b

/-- Name/args extraction from one tool-call dict (both the structured
`function` shape and the flat `name`/`args` shape), with the
`'unknown_tool'` fallback applied. -/
def parseCall (call : Json) : Json × Json :=
  let raw : Json × Json :=
    match call with
    | .obj kvs =>
        let fnOpt := (jGet kvs "function").getD .null
        if fnOpt.truthy then
          match fnOpt with
          | .obj fkvs =>
              let name := (jGet fkvs "name").getD .null
              let rawArgs := (jGet fkvs "arguments").getD .null
              let args : Json :=
                match rawArgs with
                | .str s =>
                    match pyJsonLoads s.data with
                    | some j => j
                    | none => .obj [("raw", rawArgs)]
                | _ => if rawArgs.truthy then rawArgs else .obj []
              (name, args)
          | _ =>
              (jTruthyOr ((jGet kvs "name").getD .null) ((jGet kvs "function_name").getD .null),
               jTruthyOr ((jGet kvs "args").getD .null)
                 (jTruthyOr ((jGet kvs "arguments").getD .null) (.obj [])))
        else
          (jTruthyOr ((jGet kvs "name").getD .null) ((jGet kvs "function_name").getD .null),
           jTruthyOr ((jGet kvs "args").getD .null)
             (jTruthyOr ((jGet kvs "arguments").getD .null) (.obj [])))
    | _ => (.null, .obj [])
  (if raw.1.truthy then raw.1 else .str "unknown_tool", raw.2)

/-- `result if isinstance(result, str) else json.dumps(result)`. -/
def contentStrOf : ToolResult → String
  | .inl (.str s) => s
  | .inl j => ⟨Json.dumpChars j⟩
  | .inr s => s

/-- One iteration of the batch loop: the function-role message for one
intent.  The executor oracle returns the tool result and the measured
duration lexeme, or the stringified exception. -/
def runOneCall (exec : Json → Json → Except String (ToolResult × String))
    (call : Json) : JObj :=
  let p := parseCall call
  match exec p.1 p.2 with
  | .ok (result, dur) =>
      [("role", .str "function"), ("name", p.1),
       ("content", .str (contentStrOf result)), ("execution_time", .num dur)]
  | .error e =>
      [("role", .str "function"), ("name", p.1),
       ("content", .str (strAppend "[tool execution failed: " (strAppend e "]")))]

def run_tool_calls (exec : Json → Json → Except String (ToolResult × String)) :
    List Json → List JObj
  | [] => []
  | c :: rest => runOneCall exec c :: run_tool_calls exec rest

/-- C5 (confirmed): batch execution is total (never raises) and produces
exactly one function-role message per intent, in intent order (it is the
elementwise map of the single-call handler); every message carries
`role = "function"` and the intent's name, and a dispatch failure of one
tool becomes an inline `[tool execution failed: …]` content instead of
aborting the batch. -/
theorem c5_batch_execution (exec : Json → Json → Except String (ToolResult × String)) :
    (∀ calls, run_tool_calls exec calls = calls.map (runOneCall exec))
    ∧ (∀ call, jGet (runOneCall exec call) "role" = some (.str "function")
        ∧ jGet (runOneCall exec call) "name" = some (parseCall call).1)
    ∧ (∀ call e, exec (parseCall call).1 (parseCall call).2 = .error e →
        jGet (runOneCall exec call) "content"
          = some (.str (strAppend "[tool execution failed: " (strAppend e "]")))) := by
  refine ⟨?_, ?_, ?_⟩
  · intro calls
    induction calls with
    | nil => rfl
    | cons c rest ih => simp [run_tool_calls, ih]
  · intro call
    cases h : exec (parseCall call).1 (parseCall call).2 with
    | ok r =>
        obtain ⟨result, dur⟩ := r
        simp only [runOneCall, h]
        exact ⟨rfl, rfl⟩
    | error e =>
        simp only [runOneCall, h]
        exact ⟨rfl, rfl⟩
  · intro call e h
    simp only [runOneCall, h]
    rfl

theorem c5_batch_execution_witness :
    jGet (runOneCall (fun _ _ => .error "boom") (Json.obj [("name", Json.str "t")])) "content"
      = some (Json.str (strAppend "[tool execution failed: " (strAppend "boom" "]"))) :=
  (c5_batch_execution (fun _ _ => .error "boom")).2.2 (Json.obj [("name", Json.str "t")])
    "boom" rfl

/-! ## Claim C8: discovery failure keeps the last-known-good cache -/

/-- C8 (confirmed): when the workflow API is unreachable during a refresh
(`fetched = none`), `refresh` returns the empty local mapping without
replacing the cache; a subsequent `get` probes aliases and the retained
cache and comes back empty only when no alias and no candidate variant
matches; and at the executor level, resolution failure of all layers
(registry exact / dot-segment / `functions.` forms, then discovery) is the
only way a tool is reported as unknown — with zero endpoint calls made —
while any successful resolution leads to an actual call attempt. -/
theorem c8_refresh_failure_fallback :
    (∀ (baseUrl : String) (hh : Bool) (now : Nat) (st : DiscoveryState),
        refreshApply baseUrl hh none now st = (st, []))
    ∧ (∀ (baseUrl : String) (hh : Bool) (now : Nat) (st : DiscoveryState) (key : String),
        ((toolDiscoveryGet baseUrl hh none now st key).2).cache = st.cache
        ∧ ((toolDiscoveryGet baseUrl hh none now st key).1 = none ↔
            mapGet st.aliases key = none
            ∧ mapGet st.aliases ⟨pyLower key.data⟩ = none
            ∧ cacheLookup st.cache (getCandidates key) = none))
    ∧ (∀ (registry : Registry) (disc : DiscProbe) (http : Nat → HttpResp) (name : String),
        (resolveUrl registry disc.initialGet name = none →
          (execute_tool registry disc http name).result = .error (unknownToolMsg name)
          ∧ (execute_tool registry disc http name).posts = 0)
        ∧ (resolveUrl registry disc.initialGet name ≠ none →
          1 ≤ (execute_tool registry disc http name).posts)) := by
  refine ⟨?_, ?_, ?_⟩
  · intro baseUrl hh now st
    rfl
  · intro baseUrl hh now st key
    constructor
    · unfold toolDiscoveryGet
      cases mapGet st.aliases key with
      | some e => rfl
      | none =>
          cases mapGet st.aliases ⟨pyLower key.data⟩ with
          | some e => rfl
          | none =>
              simp only []
              by_cases hst : now - st.lastRefresh > st.ttl
              · rw [if_pos hst]
                rfl
              · rw [if_neg hst]
    · unfold toolDiscoveryGet
      cases ha : mapGet st.aliases key with
      | some e => simp [ha]
      | none =>
          cases hb : mapGet st.aliases ⟨pyLower key.data⟩ with
          | some e => simp
          | none =>
              simp only []
              by_cases hst : now - st.lastRefresh > st.ttl
              · rw [if_pos hst]
                simp [refreshApply]
              · rw [if_neg hst]
                simp
  · intro registry disc http name
    constructor
    · intro h
      simp [execute_tool, h]
    · intro h
      cases hr : resolveUrl registry disc.initialGet name with
      | none => exact absurd hr h
      | some u =>
          simp only [execute_tool, hr]
          repeat' split
          all_goals simp

theorem c8_refresh_failure_fallback_witness :
    (execute_tool [] {} (fun _ => HttpResp.ok false "ok") "ghost").result
      = .error (unknownToolMsg "ghost")
    ∧ (execute_tool [] {} (fun _ => HttpResp.ok false "ok") "ghost").posts = 0 :=
  ((c8_refresh_failure_fallback.2.2 [] {} (fun _ => HttpResp.ok false "ok") "ghost").1) rfl

/-! ## Response normalization — `transform_local_response` (server.py 129-189)

`str(obj)` of a parsed JSON value (used only for truthy non-dict upstream
bodies) is modelled by `pyRepr`; float `repr` normalization (`1e3` ↦
`1000.0`) is not modelled — no claim touches `str()` of numeric bodies. -/

def apostropheChar : Char := Char.ofNat 39

mutual

def pyRepr : Json → List Char
  | .null => 'N' :: 'o' :: 'n' :: 'e' :: []
  | .bool true => 'T' :: 'r' :: 'u' :: 'e' :: []
  | .bool false => 'F' :: 'a' :: 'l' :: 's' :: 'e' :: []
  | .num raw => raw.data
  | .str s => apostropheChar :: (s.data ++ [apostropheChar])
  | .arr xs => '[' :: (pyReprArr xs ++ [']'])
  | .obj kvs => lbrace :: (pyReprObj kvs ++ [rbrace])

def pyReprArr : List Json → List Char
  | [] => []
  | [x] => pyRepr x
  | x :: y :: rest => pyRepr x ++ ',' :: ' ' :: pyReprArr (y :: rest)

def pyReprObj : List (String × Json) → List Char
  | [] => []
  | [(k, v)] => (apostropheChar :: (k.data ++ [apostropheChar])) ++ ':' :: ' ' :: pyRepr v
  | (k, v) :: e :: rest =>
      (apostropheChar :: (k.data ++ [apostropheChar])) ++ ':' :: ' ' :: pyRepr v
        ++ ',' :: ' ' :: pyReprObj (e :: rest)

end

/-- `str(x)` — a top-level string prints bare, containers print via repr. -/
def pyStr : Json → String
  | .str s => s
  | other => ⟨pyRepr other⟩

/-- Python iteration over a value (`for x in v` / `list.extend(v)`):
lists yield elements, strings yield one-character strings, dicts yield their
keys; anything else raises. -/
def pyIter : Json → Option (List Json)
  | .arr xs => some xs
  | .str s => some (s.data.map fun c => .str ⟨[c]⟩)
  | .obj kvs => some (kvs.map fun kv => .str kv.1)
  | _ => none

/-- Normalization of one choice (server.py 139-153). -/
def normChoice (ch : Json) : Json :=
  match ch with
  | .obj chkvs =>
      match (jGet chkvs "message").getD .null with
      | .obj msg =>
          let role := (jGet msg "role").getD (.str "assistant")
          let content := (jGet msg "content").getD .null
          let tcv := (jGet msg "tool_calls").getD .null
          let outMsg : JObj := [("role", role), ("content", content)]
            ++ (if tcv.truthy then [("tool_calls", tcv)] else [])
          .obj [("message", .obj outMsg)]
      | _ => ch
  | _ => ch

/-- One entry of the top-level `tool_calls` conversion (`uuid4` ids come
from the `freshId` supply); a non-dict element raises. -/
def mkToolCallEntry (freshId : String) (c : Json) : Except Unit Json :=
  match c with
  | .obj ckvs => .ok (.obj
      [("id", .str (strAppend "call_" freshId)),
       ("type", .str "function"),
       ("function", .obj
         [("name", (jGet ckvs "name").getD .null),
          ("arguments", .str ⟨Json.dumpChars ((jGet ckvs "args").getD (.obj []))⟩)])])
  | _ => .error ()

def mkToolCallEntries (freshId : Nat → String) : Nat → List Json → Except Unit (List Json)
  | _, [] => .ok []
  | i, c :: rest =>
      match mkToolCallEntry (freshId i) c with
      | .ok e => (mkToolCallEntries freshId (i + 1) rest).map (e :: ·)
      | .error _ => .error ()

/-- `transform_local_response(local_response)`.  `.error` models an
exception escaping the function (only the top-level `tool_calls` branch has
no internal `try`); the normalized-choices branch catches its own errors
and returns the original response. -/
def transform_local_response (freshId : Nat → String) (lr : Json) : Except Unit Json :=
  if !lr.truthy then .ok (.obj [("choices", .arr [])])
  else
    match lr with
    | .obj kvs =>
        let choicesV := (jGet kvs "choices").getD .null
        if choicesV.truthy then
          match pyIter choicesV with
          | some chs => .ok (.obj [("choices", .arr (chs.map normChoice))])
          | none => .ok lr
        else
          let tcs := (jGet kvs "tool_calls").getD .null
          if tcs.truthy then
            match tcs with
            | .arr cs =>
                match mkToolCallEntries freshId 0 cs with
                | .ok entries => .ok (.obj [("choices", .arr
                    [.obj [("message", .obj
                      [("role", .str "assistant"),
                       ("content", (jGet kvs "content").getD (.str "")),
                       ("tool_calls", .arr entries)])]])])
                | .error _ => .error ()
            | _ => .error ()
          else
            .ok (.obj [("choices", .arr
              [.obj [("message", .obj
                [("role", .str "assistant"),
                 ("content", (jGet kvs "content").getD (.str ""))])]])])
    | _ =>
        .ok (.obj [("choices", .arr
          [.obj [("message", .obj
            [("role", .str "assistant"),
             ("content", .str (pyStr lr))])]])])

/-! ## Orchestration loop (server.py 587-642, non-passthrough) -/

/-- Text-extracted intents as re-wrapped by the loop (server.py 602-603):
`tc.get('arguments', {})` on the extractor's `name`/`args` dicts always
falls back to `\x7b\x7d`. -/
def extractForLoop (content : String) : List Json :=
  (extract_tool_calls content).map fun tc =>
    .obj [("name", (jGet tc "name").getD .null),
          ("args", (jGet tc "arguments").getD (.obj []))]

/-- Intent collection over the transformed choices (server.py 594-604);
`.error` is an exception reaching the loop's `except` clause. -/
def collectGo : List Json → List Json → Except Unit (List Json)
  | [], acc => .ok acc
  | ch :: rest, acc =>
      match ch with
      | .obj chkvs =>
          match (jGet chkvs "message").getD (.obj []) with
          | .obj mkvs =>
              let tcv := (jGet mkvs "tool_calls").getD .null
              match (if tcv.truthy then pyIter tcv else some []) with
              | none => .error ()
              | some els =>
                  let acc1 := acc ++ els
                  match (jGet mkvs "content").getD .null with
                  | .str s => collectGo rest (acc1 ++ extractForLoop s)
                  | _ => collectGo rest acc1
          | _ => .error ()
      | _ => .error ()

def collectCalls (transformed : Json) : Except Unit (List Json) :=
  match transformed with
  | .obj kvs =>
      match (jGet kvs "choices").getD (.arr []) with
      | .arr chs => collectGo chs []
      | .str s => if s.data.isEmpty then .ok [] else .error ()
      | .obj o => if o.isEmpty then .ok [] else .error ()
      | _ => .error ()
  | _ => .error ()

/-- One upstream chat-completion exchange: a success body, a 413 followed by
the one trim-and-retry POST, or a failure (any other error status or a
network/deserialization error — `raise_for_status`/`json()` raise and the
loop's `except` returns the previous body). -/
inductive UpRes where
  | ok (body : Json)
  | tooLarge (second : Option Json)
  | fail

/-- POSTs made during one exchange. -/
def exchangePosts : UpRes → Nat
  | .tooLarge _ => 2
  | _ => 1

/-- The `for _ in range(MAX_TOOL_ITERATIONS)` loop.  State: remaining
iterations, next exchange index, `github_request`, `messages_loop`, and the
current `local_resp`.  Returns the response body (`.error` = an exception
escaping the handler) and the number of follow-up upstream exchanges. -/
def toolLoop (upstream : Nat → UpRes)
    (exec : Json → Json → Except String (ToolResult × String))
    (freshId : Nat → String) (maxBytes : Nat) (dropOldest : Bool) :
    Nat → Nat → JObj → List JObj → Json → Except Unit Json × Nat
  | 0, _, _, _, localResp => (transform_local_response freshId localResp, 0)
  | fuel + 1, callIdx, gr, msgsLoop, localResp =>
      match transform_local_response freshId localResp with
      | .error _ => (.ok localResp, 0)
      | .ok transformed =>
          match collectCalls transformed with
          | .error _ => (.ok localResp, 0)
          | .ok tcs =>
              if tcs.isEmpty then (.ok transformed, 0)
              else
                let results := run_tool_calls exec tcs
                let msgs' := msgsLoop ++ results
                let gr1 := setMessages gr msgs'
                let gr2 :=
                  if bytesJObj gr1 > maxBytes && dropOldest then
                    let sys := msgs'.filter isSystemMsg
                    let rem := dropLoop maxBytes gr1 sys (msgs'.filter fun m => !isSystemMsg m)
                    setMessages gr1 (sys ++ rem)
                  else gr1
                match upstream callIdx with
                | .fail => (.ok localResp, 1)
                | .ok body =>
                    let r := toolLoop upstream exec freshId maxBytes dropOldest
                      fuel (callIdx + 1) gr2 msgs' body
                    (r.1, r.2 + 1)
                | .tooLarge second =>
                    match second with
                    | none => (.ok localResp, 2)
                    | some body =>
                        let r := toolLoop upstream exec freshId maxBytes dropOldest
                          fuel (callIdx + 1) gr2 msgs' body
                        (r.1, r.2 + 2)

/-- The whole non-streaming, non-passthrough request path: the initial
exchange at index 0 (with its own 413 trim-and-retry), then the loop. -/
def chatNonStreaming (upstream : Nat → UpRes)
    (exec : Json → Json → Except String (ToolResult × String))
    (freshId : Nat → String) (maxBytes : Nat) (dropOldest : Bool)
    (maxIter : Nat) (gr : JObj) (msgs : List JObj) : Except Unit Json × Nat :=
  match upstream 0 with
  | .fail => (.error (), 1)
  | .ok body =>
      let r := toolLoop upstream exec freshId maxBytes dropOldest maxIter 1 gr msgs body
      (r.1, r.2 + 1)
  | .tooLarge second =>
      match second with
      | none => (.error (), 2)
      | some body =>
          let r := toolLoop upstream exec freshId maxBytes dropOldest maxIter 1 gr msgs body
          (r.1, r.2 + 2)

theorem toolLoop_posts_le (upstream : Nat → UpRes)
    (exec : Json → Json → Except String (ToolResult × String))
    (freshId : Nat → String) (maxBytes : Nat) (dropOldest : Bool) :
    ∀ (fuel callIdx : Nat) (gr : JObj) (msgs : List JObj) (lr : Json),
      (toolLoop upstream exec freshId maxBytes dropOldest fuel callIdx gr msgs lr).2
        ≤ 2 * fuel := by
  intro fuel
  induction fuel with
  | zero => intro callIdx gr msgs lr; simp [toolLoop]
  | succ n ih =>
      intro callIdx gr msgs lr
      cases htr : transform_local_response freshId lr with
      | error e => simp [toolLoop, htr]
      | ok transformed =>
          cases hco : collectCalls transformed with
          | error e => simp [toolLoop, htr, hco]
          | ok tcs =>
              by_cases hemp : tcs.isEmpty
              · simp [toolLoop, htr, hco, hemp]
              · cases hup : upstream callIdx with
                | fail =>
                    simp [toolLoop, htr, hco, hemp, hup] <;> omega
                | ok body =>
                    have hemp2 : tcs.isEmpty = false := by simpa using hemp
                    simp only [toolLoop, htr, hco, hup, hemp2, Bool.false_eq_true, if_false]
                    exact le_trans (Nat.add_le_add_right (ih _ _ _ _) 1) (by omega)
                | tooLarge second =>
                    cases second with
                    | none =>
                        simp [toolLoop, htr, hco, hemp, hup] <;> omega
                    | some body =>
                        have hemp2 : tcs.isEmpty = false := by simpa using hemp
                        simp only [toolLoop, htr, hco, hup, hemp2, Bool.false_eq_true, if_false]
                        exact le_trans (Nat.add_le_add_right (ih _ _ _ _) 2) (by omega)

theorem toolLoop_posts_le_no413 (upstream : Nat → UpRes)
    (exec : Json → Json → Except String (ToolResult × String))
    (freshId : Nat → String) (maxBytes : Nat) (dropOldest : Bool)
    (h1 : ∀ i, exchangePosts (upstream i) = 1) :
    ∀ (fuel callIdx : Nat) (gr : JObj) (msgs : List JObj) (lr : Json),
      (toolLoop upstream exec freshId maxBytes dropOldest fuel callIdx gr msgs lr).2
        ≤ fuel := by
  intro fuel
  induction fuel with
  | zero => intro callIdx gr msgs lr; simp [toolLoop]
  | succ n ih =>
      intro callIdx gr msgs lr
      cases htr : transform_local_response freshId lr with
      | error e => simp [toolLoop, htr]
      | ok transformed =>
          cases hco : collectCalls transformed with
          | error e => simp [toolLoop, htr, hco]
          | ok tcs =>
              by_cases hemp : tcs.isEmpty
              · simp [toolLoop, htr, hco, hemp]
              · cases hup : upstream callIdx with
                | fail =>
                    simp [toolLoop, htr, hco, hemp, hup] <;> omega
                | ok body =>
                    have hemp2 : tcs.isEmpty = false := by simpa using hemp
                    simp only [toolLoop, htr, hco, hup, hemp2, Bool.false_eq_true, if_false]
                    exact le_trans (Nat.add_le_add_right (ih _ _ _ _) 1) (by omega)
                | tooLarge second =>
                    have h2 := h1 callIdx
                    rw [hup] at h2
                    simp [exchangePosts] at h2

/-- C1 (amended): the non-streaming tool-orchestration path makes one
initial upstream exchange plus at most `maxIterations` follow-up exchanges
from the loop — so at most `maxIterations + 1` upstream chat-completion
exchanges per inbound request when no over-size (413) retry fires, and at
most `2 * (maxIterations + 1)` POSTs counting each 413 trim-and-retry; the
loop itself never makes more than `maxIterations` follow-up exchanges, so a
model that always emits a tool call still gets a response instead of an
unbounded loop (see the counterexample theorem for the exact
`maxIterations + 1` count). -/
theorem c1_loop_bound (upstream : Nat → UpRes)
    (exec : Json → Json → Except String (ToolResult × String))
    (freshId : Nat → String) (maxBytes : Nat) (dropOldest : Bool)
    (maxIter : Nat) (gr : JObj) (msgs : List JObj) :
    (∀ (callIdx : Nat) (gr' : JObj) (msgs' : List JObj) (lr : Json),
        (toolLoop upstream exec freshId maxBytes dropOldest maxIter callIdx gr' msgs' lr).2
          ≤ maxIter
        ∨ ¬ (∀ i, exchangePosts (upstream i) = 1))
    ∧ (chatNonStreaming upstream exec freshId maxBytes dropOldest maxIter gr msgs).2
        ≤ 2 * (maxIter + 1)
    ∧ ((∀ i, exchangePosts (upstream i) = 1) →
        (chatNonStreaming upstream exec freshId maxBytes dropOldest maxIter gr msgs).2
          ≤ maxIter + 1) := by
  refine ⟨?_, ?_, ?_⟩
  · intro callIdx gr' msgs' lr
    by_cases h1 : ∀ i, exchangePosts (upstream i) = 1
    · exact Or.inl (toolLoop_posts_le_no413 upstream exec freshId maxBytes dropOldest h1
        maxIter callIdx gr' msgs' lr)
    · exact Or.inr h1
  · cases hup : upstream 0 with
    | fail => simp [chatNonStreaming, hup] <;> omega
    | ok body =>
        simp only [chatNonStreaming, hup]
        exact le_trans
          (Nat.add_le_add_right (toolLoop_posts_le upstream exec freshId maxBytes dropOldest
            maxIter 1 gr msgs body) 1) (by omega)
    | tooLarge second =>
        cases second with
        | none => simp [chatNonStreaming, hup] <;> omega
        | some body =>
            simp only [chatNonStreaming, hup]
            exact le_trans
              (Nat.add_le_add_right (toolLoop_posts_le upstream exec freshId maxBytes dropOldest
                maxIter 1 gr msgs body) 2) (by omega)
  · intro h1
    cases hup : upstream 0 with
    | fail => simp [chatNonStreaming, hup] <;> omega
    | ok body =>
        simp only [chatNonStreaming, hup]
        exact Nat.add_le_add_right (toolLoop_posts_le_no413 upstream exec freshId maxBytes
          dropOldest h1 maxIter 1 gr msgs body) 1
    | tooLarge second =>
        have h2 := h1 0
        rw [hup] at h2
        simp [exchangePosts] at h2

theorem c1_loop_bound_witness :
    (chatNonStreaming (fun _ => UpRes.ok Json.null) (fun _ _ => .error "e")
      (fun _ => "id") 200000 true 3 [] []).2 ≤ 3 + 1 :=
  (c1_loop_bound (fun _ => UpRes.ok Json.null) (fun _ _ => .error "e")
    (fun _ => "id") 200000 true 3 [] []).2.2 (fun i => rfl)

/-- The always-tool-calling scenario at `maxIterations = 1`. -/
def c1resp : Json :=
  .obj [("choices", .arr [.obj [("message", .obj
    [("role", .str "assistant"), ("content", .str exactToolCallText)])]])]

def c1req : JObj :=
  [("model", .str "openai/gpt-4o-mini"),
   ("messages", .arr [.obj [("role", .str "user"), ("content", .str "add 1 2")]])]

def isOkResp : Except Unit Json → Bool
  | .ok _ => true
  | .error _ => false

/-- C1 counterexample: with `maxIterations = 1` and a model that answers
every exchange with an embedded tool call, the request path performs `2`
upstream chat-completion exchanges (`1` initial + `1` loop follow-up) and
then returns a response — more than the claimed `maxIterations = 1` bound
on upstream calls per inbound request, though still finite. -/
theorem c1_counterexample :
    (chatNonStreaming (fun _ => UpRes.ok c1resp)
        (fun _ _ => .ok (.inr "5", "0.01")) (fun _ => "00000000")
        200000 true 1 c1req
        [[("role", Json.str "user"), ("content", Json.str "add 1 2")]]).2 = 2
    ∧ 1 < 2
    ∧ isOkResp (chatNonStreaming (fun _ => UpRes.ok c1resp)
        (fun _ _ => .ok (.inr "5", "0.01")) (fun _ => "00000000")
        200000 true 1 c1req
        [[("role", Json.str "user"), ("content", Json.str "add 1 2")]]).1 = true := by
  exact ⟨by rfl, by decide, by rfl⟩

/-! ## Stream Relay — `chat_completions.generate` (server.py 517-585)

Upstream lines are relayed until a chunk yields a tool-call intent; then the
pending calls are executed, one synchronous non-streaming follow-up is
issued (the `followUp` oracle, taking the tool-result messages), a single
synthesized chunk (or the inline failure chunk) is emitted and the stream
closes.  `.error` models an exception escaping the generator. -/

/-- Intent collection over one streamed payload (server.py 546-555); unlike
the non-streaming loop this extends with the extractor's dicts verbatim and
tolerates a non-dict `message`. -/
def relayCollectGo : List Json → List Json → Except Unit (List Json)
  | [], acc => .ok acc
  | ch :: rest, acc =>
      match ch with
      | .obj chkvs =>
          match (jGet chkvs "message").getD (.obj []) with
          | .obj mkvs =>
              let tcv := (jGet mkvs "tool_calls").getD .null
              match (if tcv.truthy then pyIter tcv else some []) with
              | none => .error ()
              | some els =>
                  let acc1 := acc ++ els
                  match (jGet mkvs "content").getD .null with
                  | .str s => relayCollectGo rest (acc1 ++ (extract_tool_calls s).map Json.obj)
                  | _ => relayCollectGo rest acc1
          | _ => relayCollectGo rest acc
      | _ => .error ()

/-- Lines 544-557: the guarded collection (its `except` resets to `[]`),
then the `extracted_tool_calls` passthrough check outside the `try`. -/
def relayCollect (payload : Json) : Except Unit (List Json) :=
  let base : List Json :=
    match payload with
    | .obj kvs =>
        match (jGet kvs "choices").getD (.arr []) with
        | .arr chs =>
            match relayCollectGo chs [] with
            | .ok l => l
            | .error _ => []
        | _ => []
    | _ => []
  match payload with
  | .obj kvs =>
      match jGet kvs "extracted_tool_calls" with
      | none => .ok base
      | some v =>
          match pyIter v with
          | some els => .ok (base ++ els)
          | none => .error ()
  | .arr _ => .ok base
  | .str s => if containsSeq "extracted_tool_calls".data s.data then .error () else .ok base
  | _ => .error ()

def liveChunk (sse : Bool) (line : String) : String :=
  if sse then strAppend line "\n\n" else strAppend line "\n"

def finalChunk (sse : Bool) (serialized : String) : String :=
  if sse then strAppend "data: " (strAppend serialized "\n\n")
  else strAppend serialized "\n"

def errPayloadJson : Json :=
  .obj [("choices", .arr [.obj [("message", .obj
    [("role", .str "assistant"), ("content", .str "[tool execution failed]")])]])]

def sseLine (line : String) : Bool := "data:".data.isPrefixOf (pyStrip line.data)

/-- Detection tail (server.py 558-580): execute the pending tool calls,
issue the one synchronous non-streaming follow-up, emit the single
synthesized chunk — or the inline failure chunk when anything in the
follow-up block raises — and close the stream. -/
def relayFinish (followUp : List JObj → Option Json)
    (exec : Json → Json → Except String (ToolResult × String))
    (freshId : Nat → String) (sse : Bool) (tcs : List Json) :
    Except Unit (List String × Nat) :=
  let results := run_tool_calls exec tcs
  match followUp results with
  | some body =>
      match transform_local_response freshId body with
      | .ok t => .ok ([finalChunk sse ⟨Json.dumpChars t⟩], 1)
      | .error _ => .ok ([finalChunk sse ⟨Json.dumpChars errPayloadJson⟩], 1)
  | none => .ok ([finalChunk sse ⟨Json.dumpChars errPayloadJson⟩], 1)

/-- The relay loop over upstream lines.  `mode = none` until the first
non-empty line fixes the framing (`prefix_mode`); the result is the emitted
chunks and the number of synchronous follow-up calls issued. -/
def relayGo (followUp : List JObj → Option Json)
    (exec : Json → Json → Except String (ToolResult × String))
    (freshId : Nat → String) :
    Option Bool → List String → Except Unit (List String × Nat)
  | _, [] => .ok ([], 0)
  | mode, line :: rest =>
      if line = "" then relayGo followUp exec freshId mode rest
      else
        let sse := match mode with
          | some m => m
          | none => sseLine line
        let cont : Option Json → Except Unit (List String × Nat) := fun payload =>
          let forward : Except Unit (List String × Nat) :=
            (relayGo followUp exec freshId (some sse) rest).map
              fun r => (liveChunk sse line :: r.1, r.2)
          match payload with
          | none => forward
          | some p =>
              if !p.truthy then forward
              else
                match relayCollect p with
                | .error _ => .error ()
                | .ok tcs =>
                    if tcs.isEmpty then forward
                    else relayFinish followUp exec freshId sse tcs
        if sse && sseLine line then
          let ptxt := pyStrip ((pyStrip line.data).drop 5)
          if ptxt = "[DONE]".data then .ok (["data: [DONE]\n\n"], 0)
          else cont (pyJsonLoads ptxt)
        else cont (pyJsonLoads (pyStrip line.data))

/-- The framing the first non-empty line dictates. -/
def detectSse : List String → Bool
  | [] => false
  | l :: rest => if l = "" then detectSse rest else sseLine l

theorem relay_mode_refinement (followUp : List JObj → Option Json)
    (exec : Json → Json → Except String (ToolResult × String))
    (freshId : Nat → String) :
    ∀ lines, relayGo followUp exec freshId none lines
      = relayGo followUp exec freshId (some (detectSse lines)) lines := by
  intro lines
  induction lines with
  | nil => rfl
  | cons l rest ih =>
      by_cases hl : l = ""
      · subst hl
        simp only [relayGo, if_pos rfl, detectSse]
        exact ih
      · simp only [relayGo, if_neg hl, detectSse]

theorem relayFinish_count (followUp : List JObj → Option Json)
    (exec : Json → Json → Except String (ToolResult × String))
    (freshId : Nat → String) (sse : Bool) (tcs : List Json)
    (outs : List String) (n : Nat)
    (h : relayFinish followUp exec freshId sse tcs = .ok (outs, n)) : n = 1 := by
  simp only [relayFinish] at h
  split at h
  · split at h
    all_goals
      injection h with h
      injection h with h1 h2
      omega
  · injection h with h
    injection h with h1 h2
    omega

theorem relay_follow_bound_some (followUp : List JObj → Option Json)
    (exec : Json → Json → Except String (ToolResult × String))
    (freshId : Nat → String) :
    ∀ (lines : List String) (m : Bool) (outs : List String) (n : Nat),
      relayGo followUp exec freshId (some m) lines = .ok (outs, n) → n ≤ 1 := by
  intro lines
  induction lines with
  | nil =>
      intro m outs n h
      simp only [relayGo] at h
      injection h with h
      injection h with h1 h2
      omega
  | cons l rest ih =>
      intro m outs n h
      by_cases hl : l = ""
      · rw [hl] at h
        simp only [relayGo, if_pos rfl] at h
        exact ih m outs n h
      · simp only [relayGo, if_neg hl] at h
        split at h
        · split at h
          · injection h with h
            injection h with h1 h2
            omega
          · split at h
            · cases hrec : relayGo followUp exec freshId (some m) rest with
              | error e => rw [hrec] at h; exact Except.noConfusion h
              | ok r =>
                  rw [hrec] at h
                  simp only [Except.map] at h
                  injection h with h
                  injection h with h1 h2
                  exact h2 ▸ ih m r.1 r.2 (by rw [hrec])
            · split at h
              · cases hrec : relayGo followUp exec freshId (some m) rest with
                | error e => rw [hrec] at h; exact Except.noConfusion h
                | ok r =>
                    rw [hrec] at h
                    simp only [Except.map] at h
                    injection h with h
                    injection h with h1 h2
                    exact h2 ▸ ih m r.1 r.2 (by rw [hrec])
              · split at h
                · exact Except.noConfusion h
                · split at h
                  · cases hrec : relayGo followUp exec freshId (some m) rest with
                    | error e => rw [hrec] at h; exact Except.noConfusion h
                    | ok r =>
                        rw [hrec] at h
                        simp only [Except.map] at h
                        injection h with h
                        injection h with h1 h2
                        exact h2 ▸ ih m r.1 r.2 (by rw [hrec])
                  · have := relayFinish_count followUp exec freshId _ _ outs n h
                    omega
        · split at h
          · cases hrec : relayGo followUp exec freshId (some m) rest with
            | error e => rw [hrec] at h; exact Except.noConfusion h
            | ok r =>
                rw [hrec] at h
                simp only [Except.map] at h
                injection h with h
                injection h with h1 h2
                exact h2 ▸ ih m r.1 r.2 (by rw [hrec])
          · split at h
            · cases hrec : relayGo followUp exec freshId (some m) rest with
              | error e => rw [hrec] at h; exact Except.noConfusion h
              | ok r =>
                  rw [hrec] at h
                  simp only [Except.map] at h
                  injection h with h
                  injection h with h1 h2
                  exact h2 ▸ ih m r.1 r.2 (by rw [hrec])
            · split at h
              · exact Except.noConfusion h
              · split at h
                · cases hrec : relayGo followUp exec freshId (some m) rest with
                  | error e => rw [hrec] at h; exact Except.noConfusion h
                  | ok r =>
                      rw [hrec] at h
                      simp only [Except.map] at h
                      injection h with h
                      injection h with h1 h2
                      exact h2 ▸ ih m r.1 r.2 (by rw [hrec])
                · have := relayFinish_count followUp exec freshId _ _ outs n h
                  omega

theorem relay_follow_bound (followUp : List JObj → Option Json)
    (exec : Json → Json → Except String (ToolResult × String))
    (freshId : Nat → String) :
    ∀ (lines : List String) (mode : Option Bool) (outs : List String) (n : Nat),
      relayGo followUp exec freshId mode lines = .ok (outs, n) → n ≤ 1 := by
  intro lines mode outs n h
  cases mode with
  | some m => exact relay_follow_bound_some followUp exec freshId lines m outs n h
  | none =>
      rw [relay_mode_refinement followUp exec freshId lines] at h
      exact relay_follow_bound_some followUp exec freshId lines (detectSse lines) outs n h

/-! ### C9 concrete stream traces -/

/-- A plain streamed chunk with no tool-call intent: it must be forwarded. -/
def c9payload1 : Json :=
  .obj [("choices", .arr [.obj [("delta", .obj [("content", .str "Hello")])]])]

/-- A streamed chunk whose assistant content embeds a tool-call intent. -/
def c9payload2 : Json :=
  .obj [("choices", .arr [.obj [("message", .obj
    [("role", .str "assistant"), ("content", .str exactToolCallText)])]])]

/-- A later chunk: after detection it must NOT be forwarded. -/
def c9payload3 : Json :=
  .obj [("choices", .arr [.obj [("delta", .obj [("content", .str "Later")])]])]

def c9line1 : String := strAppend "data: " ⟨Json.dumpChars c9payload1⟩

def c9line2 : String := strAppend "data: " ⟨Json.dumpChars c9payload2⟩

def c9line3 : String := strAppend "data: " ⟨Json.dumpChars c9payload3⟩

/-- An event-prefixed upstream stream: ordinary chunk, blank keep-alive,
tool-call chunk, then a further chunk the relay must drop. -/
def c9lines : List String := [c9line1, "", c9line2, c9line3]

def c9exec : Json → Json → Except String (ToolResult × String) :=
  fun _ _ => .ok (.inr "3", "0.01")

def c9fresh : Nat → String := fun _ => "abcdef12"

/-- The synchronous follow-up response body (the non-streaming upstream
answer after the tool results are appended). -/
def c9upBody : Json :=
  .obj [("choices", .arr [.obj [("message", .obj
    [("role", .str "assistant"), ("content", .str "The sum is 3.")])]])]

def c9follow : List JObj → Option Json :=
  fun results => if results.isEmpty then none else some c9upBody

/-- C9: for every streamed response in the non-passthrough path the relay
fixes the framing interpretation from the first non-empty line and running
it with that fixed interpretation is the same as running it with the
per-line default (conjunct 1); every successful relay issues at most one
synchronous follow-up call (conjunct 2); on a concrete event-prefixed
stream whose second payload embeds a tool-call intent, the relay forwards
the chunks before detection, executes the calls, issues exactly one
follow-up and emits a single synthesized final chunk, dropping every later
line (conjunct 3); and when the follow-up block fails it instead emits the
single inline failure-marker chunk, still closing the stream after one
follow-up attempt (conjunct 4). -/
theorem c9_stream_relay :
    (∀ (followUp : List JObj → Option Json)
       (exec : Json → Json → Except String (ToolResult × String))
       (freshId : Nat → String) (lines : List String),
        relayGo followUp exec freshId none lines
          = relayGo followUp exec freshId (some (detectSse lines)) lines)
    ∧ (∀ (followUp : List JObj → Option Json)
         (exec : Json → Json → Except String (ToolResult × String))
         (freshId : Nat → String) (lines : List String)
         (mode : Option Bool) (outs : List String) (n : Nat),
          relayGo followUp exec freshId mode lines = .ok (outs, n) → n ≤ 1)
    ∧ (∃ t, transform_local_response c9fresh c9upBody = Except.ok t
          ∧ relayGo c9follow c9exec c9fresh none c9lines
              = .ok ([liveChunk true c9line1,
                      finalChunk true ⟨Json.dumpChars t⟩], 1))
    ∧ relayGo (fun _ => none) c9exec c9fresh none c9lines
        = .ok ([liveChunk true c9line1,
                finalChunk true ⟨Json.dumpChars errPayloadJson⟩], 1) := by
  refine ⟨?_, ?_, ?_, ?_⟩
  · exact fun fu ex fi => relay_mode_refinement fu ex fi
  · exact fun fu ex fi lines mode outs n h => relay_follow_bound fu ex fi lines mode outs n h
  · exact ⟨_, rfl, rfl⟩
  · rfl

theorem c9_stream_relay_witness :
    relayGo c9follow c9exec c9fresh (some true) ["data: [DONE]"]
      = Except.ok (["data: [DONE]\n\n"], 0)
    ∧ (0 : Nat) ≤ 1 := by
  constructor
  · rfl
  · exact c9_stream_relay.2.1 c9follow c9exec c9fresh ["data: [DONE]"]
      (some true) ["data: [DONE]\n\n"] 0 (by rfl)

end N8N
